import Mathlib

/-!
Verification of the report-text parser in `simpleperf/scripts/report.py`
(`parse_event_reports` and its data classes `CallTreeNode`, `ReportItem`,
`EventReport`).

Modelling conventions:
* A Python text line is a `List Char` (lines come from `readlines` followed by
  `rstrip`, so they contain no newline character).
* Python objects are mutated through aliased references
  (`cur_event_report`, `cur_report_item`, `call_tree_stack[d]`, `last_node`),
  so the heap is modelled by arenas: `PyState.nodes`, `PyState.items` and
  `PyState.reports` are lists indexed by allocation order, and every object
  reference in the state is an index into the corresponding arena.
* A Python exception aborts `parse_event_reports`; the step function therefore
  returns `Except PyError PyState`, with one error constructor per exception
  kind the code can raise.
* Python `float` values produced by `float(m.group(1))` (a string of digits and
  dots) and the literal `100.0` are modelled exactly as rationals; no claim
  here depends on binary rounding of the decimal literal.
-/

namespace Report

/-- Exceptions `parse_event_reports` can raise: the `assert depth != -1`
(AssertionError), `last_node.add_call` / `cur_report_item.call_tree` on `None`
(AttributeError), `call_tree_stack[depth - 1]` on a missing key (KeyError), and
`float()` on a malformed numeric string (ValueError). -/
inductive PyError where
  | assertionError
  | attributeError
  | keyError
  | valueError
deriving DecidableEq, Repr

/-- Python `str.isspace` on the single characters that can occur in a report
line (the six ASCII whitespace characters). -/
def pyIsSpace (c : Char) : Bool :=
  c = ' ' || c = '\t' || c = '\n' || c = '\r' || c = '\x0b' || c = '\x0c'

/-- Drop leading characters that belong to `cs` (one side of Python
`str.strip(cs)`). -/
def stripLeading (cs : List Char) (l : List Char) : List Char :=
  l.dropWhile (fun c => cs.contains c)

/-- Python `line.strip(cs)`: remove the characters of `cs` from both ends. -/
def pyStrip (cs : List Char) (l : List Char) : List Char :=
  ((stripLeading cs (stripLeading cs l).reverse)).reverse

/-- `p` is a prefix of `l` (Python `line.find(p) == 0` for nonempty `p`). -/
def isPre (p l : List Char) : Bool :=
  match p, l with
  | [], _ => true
  | _ :: _, [] => false
  | a :: ps, b :: ls => a = b && isPre ps ls

/-- Python `pat in line`: `pat` occurs as a contiguous substring of `l`. -/
def hasSub (pat : List Char) (l : List Char) : Bool :=
  match l with
  | [] => pat.isEmpty
  | _ :: t => isPre pat l || hasSub pat t

/-- Index of the first occurrence of `c` in `l` (Python `line.find(c)`,
with `none` for `-1`). -/
def firstIdx (c : Char) (l : List Char) : Option Nat :=
  match l with
  | [] => none
  | x :: t => if x = c then some 0 else (firstIdx c t).map (· + 1)

/-- The loop `for i in range(len(line)): if line[i] == '|': if not
vertical_columns or vertical_columns[-1] < i: vertical_columns.append(i)`,
with `i` starting at `i0`. -/
def updateColsGo (l : List Char) (i0 : Nat) (cols : List Nat) : List Nat :=
  match l with
  | [] => cols
  | c :: t =>
    updateColsGo t (i0 + 1)
      (if c = '|' && (cols.isEmpty || cols.getLastD 0 < i0) then cols ++ [i0] else cols)

/-- Record the vertical-bar columns of `l` into `cols` (source lines 145-148). -/
def updateCols (cols : List Nat) (l : List Char) : List Nat :=
  updateColsGo l 0 cols

/-- The loop `for i in range(len(vertical_columns)): if pos >=
vertical_columns[i]: depth = i`, scanning `cols` with next index `i` and
accumulator `d`. -/
def depthGo (pos : Nat) (cols : List Nat) (i : Int) (d : Int) : Int :=
  match cols with
  | [] => d
  | c :: t => depthGo pos t (i + 1) (if pos ≥ c then i else d)

/-- Depth inferred for a dash at column `pos` given the recorded vertical
columns; `-1` when no recorded column is at or left of `pos`
(source lines 162-165). -/
def depthOf (pos : Nat) (cols : List Nat) : Int :=
  depthGo pos cols 0 (-1)

/-- Numeric value of a digit string (most significant first); used for the
integer and fractional parts of a Python float literal. -/
def digitsNat (l : List Char) : Nat :=
  l.foldl (fun a c => a * 10 + (c.toNat - '0'.toNat)) 0

/-- Python `float(s)` for `s` drawn from the regex group `[\d\.]+`: defined
exactly when `s` consists of digits and at most one dot and contains at least
one digit; `none` models the ValueError raised otherwise (e.g. `"1.2.3"`).
The decimal `a.b` (with `k` fractional digits) is the rational
`(a * 10^k + b) / 10^k`, i.e. `a + b / 10^k`. -/
def pyFloat (l : List Char) : Option Rat :=
  if l.all (fun c => c.isDigit || c = '.') && l.count '.' ≤ 1 && l.any (fun c => c.isDigit) then
    match firstIdx '.' l with
    | none => some ((digitsNat l : Nat) : Rat)
    | some i =>
      some (mkRat (digitsNat (l.take i) * 10 ^ (l.drop (i + 1)).length +
        digitsNat (l.drop (i + 1))) (10 ^ (l.drop (i + 1)).length))
  else none

/-- Character class `[-\s]` of the separator run in the percentage regex. -/
def isPercSep (c : Char) : Bool :=
  c = '-' || pyIsSpace c

/-- Match `[-\s]+(.+)$` against `t`, returning the `.+` group.  The separator
run is greedy; when it would swallow all of `t`, backtracking leaves the final
character to `.+` (possible only when the run has length at least two). -/
def percTail (t : List Char) : Option (List Char) :=
  let sep := t.takeWhile isPercSep
  if sep.isEmpty then none
  else
    let rem := t.drop sep.length
    if rem.isEmpty then
      if 2 ≤ sep.length then some (t.drop (sep.length - 1)) else none
    else some rem

/-- `re.search(r'^([\d\.]+)%[-\s]+(.+)$', line)` (source line 169): the match
exists iff the maximal leading run of digits/dots is nonempty and immediately
followed by `%` (a shorter run would end before another digit or dot, never
before `%`), and the remainder matches `[-\s]+(.+)$`.  Returns the two groups. -/
def percMatch (l : List Char) : Option (List Char × List Char) :=
  let g1 := l.takeWhile (fun c => c.isDigit || c = '.')
  if g1.isEmpty then none
  else
    match l.drop g1.length with
    | '%' :: t => (percTail t).map (fun g2 => (g1, g2))
    | _ => none

/-- Source lines 169-175: try the percentage regex on the stripped line;
on a match, `float` the first group (ValueError possible), else default to
`100.0` with the whole stripped line as the function name. -/
def parsePercent (l : List Char) : Except PyError (Rat × List Char) :=
  match percMatch l with
  | some (g1, g2) =>
    match pyFloat g1 with
    | some q => .ok (q, g2)
    | none => .error .valueError
  | none => .ok (100, l)

/-- The literal `'Event:'`. -/
def eventTok : List Char := "Event:".toList

/-- The elided-subtree marker `'skipped in brief callgraph mode'`. -/
def marker : List Char := "skipped in brief callgraph mode".toList

/-- The strip set `'| \t'` of source lines 150 and 157. -/
def blankSet : List Char := ['|', ' ', '\t']

/-- The strip set `'|- \t'` of source line 168. -/
def nodeSet : List Char := ['|', '-', ' ', '\t']

/-- Python class `CallTreeNode` (source lines 48-61): a percentage, the
collapsed stack frames, and the children (as arena indices). -/
structure CallTreeNode where
  percentage : Rat
  call_stack : List (List Char)
  children : List Nat
deriving DecidableEq, Repr, Inhabited

/-- Python class `ReportItem` (source lines 78-84): the raw top-level line and
an optional call-tree root (arena index). -/
structure ReportItem where
  raw_line : List Char
  call_tree : Option Nat
deriving DecidableEq, Repr, Inhabited

/-- Python class `EventReport` (source lines 93-100): context lines, optional
title line, and report items (arena indices). -/
structure EventReport where
  context : List (List Char)
  title_line : Option (List Char)
  report_items : List Nat
deriving DecidableEq, Repr, Inhabited

/-- The local state of the `parse_event_reports` loop (source lines 114-122),
plus the three object arenas and the immutable `common_report_context`. -/
structure PyState where
  nodes : List CallTreeNode
  items : List ReportItem
  reports : List EventReport
  event_reports : List Nat
  in_report_context : Bool
  cur_event_report : Nat
  cur_report_item : Option Nat
  call_tree_stack : List (Nat × Nat)
  vertical_columns : List Nat
  last_node : Option Nat
  has_skipped_callgraph : Bool
  common : List (List Char)
deriving DecidableEq, Repr

/-- In-place mutation of the object at index `i` of an arena. -/
def listModify (l : List α) (i : Nat) (f : α → α) : List α :=
  match l, i with
  | [], _ => []
  | x :: xs, 0 => f x :: xs
  | x :: xs, n + 1 => x :: listModify xs n f

/-- Lookup in `call_tree_stack` (a Python dict keyed by depth; updates are
consed, so the most recent binding of a key shadows older ones). -/
def stackLookup (d : Nat) (st : List (Nat × Nat)) : Option Nat :=
  match st with
  | [] => none
  | (k, v) :: t => if k = d then some v else stackLookup d t

/-- Source lines 156-159: a detail line with no dash extends `last_node`'s
frame chain; `last_node` being `None` raises AttributeError. -/
def stepCall (s : PyState) (name : List Char) : Except PyError PyState :=
  match s.last_node with
  | none => .error .attributeError
  | some nid =>
    .ok { s with nodes := listModify s.nodes nid
                   (fun n => { n with call_stack := n.call_stack ++ [name] }) }

/-- Source lines 177-183: allocate the new node and attach it at `depth`:
at depth 0 it becomes `cur_report_item.call_tree` (AttributeError when no item
exists); otherwise it becomes a child of `call_tree_stack[depth - 1]`
(KeyError when that depth was never recorded).  The node is then recorded at
its depth and as `last_node`. -/
def stepAttach (s : PyState) (depth : Nat) (pct : Rat) (name : List Char) :
    Except PyError PyState :=
  let nid := s.nodes.length
  let node : CallTreeNode := { percentage := pct, call_stack := [name], children := [] }
  if depth = 0 then
    match s.cur_report_item with
    | none => .error .attributeError
    | some iid =>
      .ok { s with nodes := s.nodes ++ [node],
                   items := listModify s.items iid (fun it => { it with call_tree := some nid }),
                   call_tree_stack := (depth, nid) :: s.call_tree_stack,
                   last_node := some nid }
  else
    match stackLookup (depth - 1) s.call_tree_stack with
    | none => .error .keyError
    | some pid =>
      .ok { s with nodes := (listModify s.nodes pid
                     (fun n => { n with children := n.children ++ [nid] })) ++ [node],
                   call_tree_stack := (depth, nid) :: s.call_tree_stack,
                   last_node := some nid }

/-- Source lines 160-183: a detail line containing a dash.  The depth is
inferred from the first dash position against the already-updated vertical
columns; `assert depth != -1` fails when the dash lies left of every recorded
column.  Then the line is stripped with `'|- \t'` and the percentage parsed. -/
def stepDash (s : PyState) (pos : Nat) (stripped : List Char) : Except PyError PyState :=
  if depthOf pos s.vertical_columns = -1 then .error .assertionError
  else
    match parsePercent stripped with
    | .error e => .error e
    | .ok (pct, name) => stepAttach s (depthOf pos s.vertical_columns).toNat pct name

/-- Source lines 144-183: an indented body line.  First the line's vertical
bars are recorded; a line that strips (with `'| \t'`) to nothing is a pure
connector; a line containing the elided-subtree marker only sets the skipped
flag; otherwise the line is a continuation (no dash) or a new node (dash). -/
def stepDetail (s : PyState) (l : List Char) : Except PyError PyState :=
  let s1 := { s with vertical_columns := updateCols s.vertical_columns l }
  if pyStrip blankSet l = [] then .ok s1
  else if hasSub marker l then .ok { s1 with has_skipped_callgraph := true }
  else
    match firstIdx '-' l with
    | none => stepCall s1 (pyStrip blankSet l)
    | some pos => stepDash s1 pos (pyStrip nodeSet l)

/-- One iteration of the `for line in lines[line_id:]` loop
(source lines 124-183). -/
def step (s : PyState) (line : List Char) : Except PyError PyState :=
  match line with
  | [] =>
    if s.in_report_context then .ok { s with in_report_context := false }
    else
      .ok { s with in_report_context := true,
                   reports := s.reports ++
                     [{ context := s.common, title_line := none, report_items := [] }],
                   cur_event_report := s.reports.length }
  | c :: cs =>
    let l := c :: cs
    if s.in_report_context then
      let reports1 := listModify s.reports s.cur_event_report
        (fun r => { r with context := r.context ++ [l] })
      if isPre eventTok l then
        .ok { s with reports := reports1,
                     event_reports := s.event_reports ++ [s.cur_event_report] }
      else .ok { s with reports := reports1 }
    else if (s.reports.getD s.cur_event_report default).title_line = none then
      .ok { s with reports := listModify s.reports s.cur_event_report
                     (fun r => { r with title_line := some l }) }
    else if pyIsSpace c = false then
      .ok { s with items := s.items ++ [{ raw_line := l, call_tree := none }],
                   reports := listModify s.reports s.cur_event_report
                     (fun r => { r with report_items := r.report_items ++ [s.items.length] }),
                   cur_report_item := some s.items.length,
                   vertical_columns := [] }
    else stepDetail s l

/-- Run the parser loop over the remaining lines, propagating any exception. -/
def runLines (s : PyState) : List (List Char) → Except PyError PyState
  | [] => .ok s
  | l :: rest =>
    match step s l with
    | .error e => .error e
    | .ok s1 => runLines s1 rest

/-- The common-report-context scan (source lines 104-112): collect lines until
a blank line or a line beginning with `Event:`; return the collected context
and the remaining lines (starting with the line that stopped the scan). -/
def splitCommon (lines : List (List Char)) : List (List Char) × List (List Char) :=
  match lines with
  | [] => ([], [])
  | l :: rest =>
    if l = [] || isPre eventTok l then ([], l :: rest)
    else
      let p := splitCommon rest
      (l :: p.1, p.2)

/-- The initial loop state (source lines 114-122) for a given common context. -/
def initState (common : List (List Char)) : PyState :=
  { nodes := [], items := [], reports := [{ context := common, title_line := none, report_items := [] }],
    event_reports := [], in_report_context := true, cur_event_report := 0,
    cur_report_item := none, call_tree_stack := [], vertical_columns := [],
    last_node := none, has_skipped_callgraph := false, common := common }

/-- Run `parse_event_reports` and return the final loop state (or the
exception that aborted it). -/
def parseFinal (lines : List (List Char)) : Except PyError PyState :=
  let p := splitCommon lines
  runLines (initState p.1) p.2

/-- `parse_event_reports(lines)` (source lines 103-188): the returned
`event_reports` list with each reference resolved through the arena, paired
with the number of `log_warning` diagnostics emitted at the end
(source lines 185-186: one iff any elided-subtree marker was seen). -/
def parse_event_reports (lines : List (List Char)) :
    Except PyError (List EventReport × Nat) :=
  match parseFinal lines with
  | .error e => .error e
  | .ok s =>
    .ok (s.event_reports.map (fun i => s.reports.getD i default),
         if s.has_skipped_callgraph then 1 else 0)

/-- An event block of a well-formed input in the sense of claim C1: the
`Event:` marker line, further context lines, and the body lines that follow
the single separating blank line. -/
structure EventBlock where
  eventLine : List Char
  extraCtx : List (List Char)
  body : List (List Char)
deriving DecidableEq, Repr

/-- A line legal inside a context section besides the marker: non-blank and
not starting with `Event:`. -/
def wfCtxLine (l : List Char) : Bool :=
  !l.isEmpty && !isPre eventTok l

/-- Well-formedness of one event block: it begins with a line starting with
`Event:`, its further context lines are non-blank non-marker lines, and its
body is a non-empty run of non-blank lines (so that single blank lines
separate context sections from body sections and consecutive blocks). -/
def wfBlock (b : EventBlock) : Bool :=
  isPre eventTok b.eventLine && b.extraCtx.all wfCtxLine &&
    !b.body.isEmpty && b.body.all (fun l => !l.isEmpty)

/-- Well-formedness of a whole input in the sense of claim C1: an optional
preamble of non-blank non-`Event:` lines followed by one or more well-formed
event blocks. -/
def wfInput (pre : List (List Char)) (bs : List EventBlock) : Bool :=
  pre.all wfCtxLine && !bs.isEmpty && bs.all wfBlock

/-- The text lines of one event block: marker line, extra context lines, one
blank line, body lines. -/
def renderBlock (b : EventBlock) : List (List Char) :=
  b.eventLine :: b.extraCtx ++ [[]] ++ b.body

/-- The text lines of a run of event blocks, consecutive blocks separated by
a single blank line. -/
def renderBlocks : List EventBlock → List (List Char)
  | [] => []
  | [b] => renderBlock b
  | b :: b2 :: bs => renderBlock b ++ [[]] ++ renderBlocks (b2 :: bs)

/-- A continuation line in the sense of claim C5, sharpened to exclude
elided-subtree marker lines: indented, non-blank after stripping `'| \t'`,
containing no dash, and not containing the marker text. -/
def contLine (l : List Char) : Bool :=
  match l with
  | [] => false
  | c :: _ =>
    pyIsSpace c && !(pyStrip blankSet l).isEmpty && !hasSub marker l &&
      (firstIdx '-' l).isNone

/-! ### Helper lemmas about the arena operations -/

theorem listModify_length (l : List α) (i : Nat) (f : α → α) :
    (listModify l i f).length = l.length := by
  induction l generalizing i with
  | nil => rfl
  | cons x xs ih =>
    cases i with
    | zero => rfl
    | succ n => simpa [listModify] using ih n

theorem listModify_id (l : List α) (i : Nat) : listModify l i (fun x => x) = l := by
  induction l generalizing i with
  | nil => rfl
  | cons x xs ih =>
    cases i with
    | zero => rfl
    | succ n => simpa [listModify] using ih n

theorem listModify_comp (l : List α) (i : Nat) (f g : α → α) :
    listModify (listModify l i f) i g = listModify l i (fun x => g (f x)) := by
  induction l generalizing i with
  | nil => rfl
  | cons x xs ih =>
    cases i with
    | zero => rfl
    | succ n => simpa [listModify] using ih n

theorem listModify_congr (l : List α) (i : Nat) (f g : α → α)
    (h : ∀ x, f x = g x) : listModify l i f = listModify l i g := by
  induction l generalizing i with
  | nil => rfl
  | cons x xs ih =>
    cases i with
    | zero => simp [listModify, h]
    | succ n => simpa [listModify] using ih n

theorem listModify_append_last (R : List α) (x : α) (f : α → α) :
    listModify (R ++ [x]) R.length f = R ++ [f x] := by
  induction R with
  | nil => rfl
  | cons y ys ih => simpa [listModify] using ih

theorem listModify_getD (l : List α) (i : Nat) (f : α → α) (d : α)
    (h : i < l.length) : (listModify l i f).getD i d = f (l.getD i d) := by
  induction l generalizing i with
  | nil => simp at h
  | cons x xs ih =>
    cases i with
    | zero => rfl
    | succ n =>
      simp only [listModify, List.getD_cons_succ]
      exact ih n (by simpa using h)

theorem listModify_getD_ne (l : List α) (i j : Nat) (f : α → α) (d : α)
    (h : i ≠ j) : (listModify l i f).getD j d = l.getD j d := by
  induction l generalizing i j with
  | nil => rfl
  | cons x xs ih =>
    cases i with
    | zero =>
      cases j with
      | zero => exact absurd rfl h
      | succ m => rfl
    | succ n =>
      cases j with
      | zero => rfl
      | succ m =>
        simp only [listModify, List.getD_cons_succ]
        exact ih n m (by omega)

theorem listModify_mem (l : List α) (i : Nat) (f : α → α) (P : α → Prop)
    (hl : ∀ x ∈ l, P x) (hf : ∀ x, P x → P (f x)) :
    ∀ x ∈ listModify l i f, P x := by
  induction l generalizing i with
  | nil => simp [listModify]
  | cons y ys ih =>
    cases i with
    | zero =>
      intro x hx
      rcases List.mem_cons.mp hx with h | h
      · exact h ▸ hf y (hl y (List.mem_cons_self y ys))
      · exact hl x (List.mem_cons_of_mem _ h)
    | succ n =>
      intro x hx
      rcases List.mem_cons.mp hx with h | h
      · exact h ▸ hl y (List.mem_cons_self y ys)
      · exact ih n (fun z hz => hl z (List.mem_cons_of_mem _ hz)) x h

theorem getD_append_left (l l2 : List α) (i : Nat) (d : α) (h : i < l.length) :
    (l ++ l2).getD i d = l.getD i d := by
  induction l generalizing i with
  | nil => simp at h
  | cons x xs ih =>
    cases i with
    | zero => rfl
    | succ n =>
      simp only [List.cons_append, List.getD_cons_succ]
      exact ih n (by simpa using h)

theorem getD_append_right (l l2 : List α) (i : Nat) (d : α) :
    (l ++ l2).getD (l.length + i) d = l2.getD i d := by
  induction l with
  | nil => simp
  | cons x xs ih => simpa [Nat.succ_add] using ih

theorem getD_range_map (l : List α) (d : α) :
    (List.range l.length).map (fun i => l.getD i d) = l := by
  induction l with
  | nil => rfl
  | cons x xs ih =>
    rw [List.length_cons, List.range_succ_eq_map, List.map_cons, List.map_map]
    have hc : ((fun i => (x :: xs).getD i d) ∘ Nat.succ) = fun i => xs.getD i d := by
      funext i
      simp [List.getD_cons_succ]
    rw [hc, ih]
    simp [List.getD_cons_zero]

theorem runLines_append (xs ys : List (List Char)) (s : PyState) :
    runLines s (xs ++ ys) =
      match runLines s xs with
      | .error e => .error e
      | .ok s1 => runLines s1 ys := by
  induction xs generalizing s with
  | nil => simp [runLines]
  | cons l t ih =>
    simp only [List.cons_append, runLines]
    cases step s l with
    | error e => rfl
    | ok s1 => exact ih s1

theorem depthGo_of_lt (pos : Nat) :
    ∀ (cols : List Nat) (i d : Int), (∀ c ∈ cols, pos < c) → depthGo pos cols i d = d
  | [], _, _, _ => rfl
  | c :: t, i, d, h => by
    have hc : pos < c := h c (List.mem_cons_self c t)
    unfold depthGo
    rw [if_neg (by omega)]
    exact depthGo_of_lt pos t (i + 1) d (fun x hx => h x (List.mem_cons_of_mem _ hx))

theorem depthOf_of_lt (pos : Nat) (cols : List Nat) (h : ∀ c ∈ cols, pos < c) :
    depthOf pos cols = -1 :=
  depthGo_of_lt pos cols 0 (-1) h

/-! ### Nonnegativity of parsed percentages -/

theorem pyFloat_nonneg (l : List Char) (q : Rat) (h : pyFloat l = some q) : 0 ≤ q := by
  unfold pyFloat at h
  split at h
  · split at h
    · cases h
      exact Nat.cast_nonneg _
    · cases h
      rw [Rat.mkRat_eq_div]
      positivity
  · cases h

theorem parsePercent_nonneg (l : List Char) (pct : Rat) (name : List Char)
    (h : parsePercent l = .ok (pct, name)) : 0 ≤ pct := by
  cases hm : percMatch l with
  | none =>
    simp only [parsePercent, hm, Except.ok.injEq, Prod.mk.injEq] at h
    rw [← h.1]
    norm_num
  | some g =>
    obtain ⟨g1, g2⟩ := g
    cases hf : pyFloat g1 with
    | none => simp [parsePercent, hm, hf] at h
    | some q =>
      simp only [parsePercent, hm, hf, Except.ok.injEq, Prod.mk.injEq] at h
      rw [← h.1]
      exact pyFloat_nonneg g1 q hf

/-! ### Characterization of every successful parser step

`step_ok_shape` lists, for a step that did not raise, the exact state update
performed, one disjunct per branch of the source loop body
(source lines 125-183). -/

theorem step_ok_shape (s : PyState) (l : List Char) (s1 : PyState)
    (h : step s l = .ok s1) :
    (l = [] ∧ s.in_report_context = true ∧ s1 = { s with in_report_context := false }) ∨
    (l = [] ∧ s.in_report_context = false ∧
      s1 = { s with
             in_report_context := true,
             reports := s.reports ++
               [{ context := s.common, title_line := none, report_items := [] }],
             cur_event_report := s.reports.length }) ∨
    (l ≠ [] ∧ s.in_report_context = true ∧ isPre eventTok l = true ∧
      s1 = { s with
             reports := listModify s.reports s.cur_event_report
               (fun r => { r with context := r.context ++ [l] }),
             event_reports := s.event_reports ++ [s.cur_event_report] }) ∨
    (l ≠ [] ∧ s.in_report_context = true ∧ isPre eventTok l = false ∧
      s1 = { s with
             reports := listModify s.reports s.cur_event_report
               (fun r => { r with context := r.context ++ [l] }) }) ∨
    (l ≠ [] ∧ s.in_report_context = false ∧
      s1 = { s with
             reports := listModify s.reports s.cur_event_report
               (fun r => { r with title_line := some l }) }) ∨
    (l ≠ [] ∧ s.in_report_context = false ∧
      s1 = { s with
             items := s.items ++ [{ raw_line := l, call_tree := none }],
             reports := listModify s.reports s.cur_event_report
               (fun r => { r with report_items := r.report_items ++ [s.items.length] }),
             cur_report_item := some s.items.length,
             vertical_columns := [] }) ∨
    (l ≠ [] ∧ s.in_report_context = false ∧
      (∃ v, s1 = { s with vertical_columns := v })) ∨
    (l ≠ [] ∧ s.in_report_context = false ∧ hasSub marker l = true ∧
      (∃ v, s1 = { s with vertical_columns := v, has_skipped_callgraph := true })) ∨
    (l ≠ [] ∧ s.in_report_context = false ∧
      (∃ v nid name, s1 = { s with
        vertical_columns := v,
        nodes := listModify s.nodes nid
          (fun n => { n with call_stack := n.call_stack ++ [name] }) })) ∨
    (l ≠ [] ∧ s.in_report_context = false ∧
      (∃ v pct name nid iid, parsePercent (pyStrip nodeSet l) = .ok (pct, name) ∧
        (s1 = { s with
          vertical_columns := v,
          nodes := s.nodes ++ [{ percentage := pct, call_stack := [name], children := [] }],
          items := listModify s.items iid (fun it => { it with call_tree := some nid }),
          call_tree_stack := (0, nid) :: s.call_tree_stack,
          last_node := some nid } ∨
        ∃ depth pid, s1 = { s with
          vertical_columns := v,
          nodes := (listModify s.nodes pid
            (fun n => { n with children := n.children ++ [nid] })) ++
            [{ percentage := pct, call_stack := [name], children := [] }],
          call_tree_stack := (depth, nid) :: s.call_tree_stack,
          last_node := some nid }))) := by
  cases l with
  | nil =>
    simp only [step] at h
    by_cases hc : s.in_report_context
    · rw [if_pos hc] at h
      cases h
      exact Or.inl ⟨rfl, hc, rfl⟩
    · rw [if_neg hc] at h
      cases h
      exact Or.inr (Or.inl ⟨rfl, by simpa using hc, rfl⟩)
  | cons c cs =>
    simp only [step] at h
    by_cases hc : s.in_report_context
    · rw [if_pos hc] at h
      by_cases he : isPre eventTok (c :: cs)
      · rw [if_pos he] at h
        cases h
        exact Or.inr (Or.inr (Or.inl ⟨by simp, hc, he, rfl⟩))
      · rw [if_neg he] at h
        cases h
        exact Or.inr (Or.inr (Or.inr (Or.inl ⟨by simp, hc, by simpa using he, rfl⟩)))
    · rw [if_neg hc] at h
      have hc' : s.in_report_context = false := by simpa using hc
      by_cases ht : (s.reports.getD s.cur_event_report default).title_line = none
      · rw [if_pos ht] at h
        cases h
        exact Or.inr (Or.inr (Or.inr (Or.inr (Or.inl ⟨by simp, hc', rfl⟩))))
      · rw [if_neg ht] at h
        by_cases hsp : pyIsSpace c = false
        · rw [if_pos hsp] at h
          cases h
          exact Or.inr (Or.inr (Or.inr (Or.inr (Or.inr (Or.inl ⟨by simp, hc', rfl⟩)))))
        · rw [if_neg hsp] at h
          simp only [stepDetail] at h
          by_cases hb : pyStrip blankSet (c :: cs) = []
          · rw [if_pos hb] at h
            cases h
            exact Or.inr (Or.inr (Or.inr (Or.inr (Or.inr (Or.inr (Or.inl
              ⟨by simp, hc', ⟨_, rfl⟩⟩))))))
          · rw [if_neg hb] at h
            by_cases hm : hasSub marker (c :: cs)
            · rw [if_pos hm] at h
              cases h
              exact Or.inr (Or.inr (Or.inr (Or.inr (Or.inr (Or.inr (Or.inr (Or.inl
                ⟨by simp, hc', hm, ⟨_, rfl⟩⟩)))))))
            · rw [if_neg hm] at h
              cases hd : firstIdx '-' (c :: cs) with
              | none =>
                rw [hd] at h
                simp only [stepCall] at h
                cases hl : s.last_node with
                | none => rw [hl] at h; cases h
                | some nid =>
                  rw [hl] at h
                  cases h
                  exact Or.inr (Or.inr (Or.inr (Or.inr (Or.inr (Or.inr (Or.inr (Or.inr
                    (Or.inl ⟨by simp, hc', ⟨_, nid, _, rfl⟩⟩))))))))
              | some pos =>
                rw [hd] at h
                simp only [stepDash] at h
                by_cases hdep : depthOf pos (updateCols s.vertical_columns (c :: cs)) = -1
                · rw [if_pos hdep] at h
                  cases h
                · rw [if_neg hdep] at h
                  cases hp : parsePercent (pyStrip nodeSet (c :: cs)) with
                  | error e => rw [hp] at h; cases h
                  | ok pv =>
                    rw [hp] at h
                    obtain ⟨pct, name⟩ := pv
                    simp only [stepAttach] at h
                    by_cases hz :
                        (depthOf pos (updateCols s.vertical_columns (c :: cs))).toNat = 0
                    · rw [if_pos hz] at h
                      cases hi : s.cur_report_item with
                      | none => rw [hi] at h; cases h
                      | some iid =>
                        rw [hi] at h
                        cases h
                        refine Or.inr (Or.inr (Or.inr (Or.inr (Or.inr (Or.inr (Or.inr
                          (Or.inr (Or.inr ⟨by simp, hc',
                            ⟨updateCols s.vertical_columns (c :: cs), pct, name,
                              s.nodes.length, iid, rfl, Or.inl ?_⟩⟩))))))))
                        rw [hz]
                    · rw [if_neg hz] at h
                      cases hs : stackLookup
                          ((depthOf pos (updateCols s.vertical_columns (c :: cs))).toNat - 1)
                          s.call_tree_stack with
                      | none => rw [hs] at h; cases h
                      | some pid =>
                        rw [hs] at h
                        cases h
                        refine Or.inr (Or.inr (Or.inr (Or.inr (Or.inr (Or.inr (Or.inr
                          (Or.inr (Or.inr ⟨by simp, hc',
                            ⟨updateCols s.vertical_columns (c :: cs), pct, name,
                              s.nodes.length, 0, rfl, Or.inr
                                ⟨(depthOf pos (updateCols s.vertical_columns (c :: cs))).toNat,
                                  pid, rfl⟩⟩⟩))))))))

/-! ### Derived step lemmas -/

theorem step_body (s : PyState) (l : List Char) (s1 : PyState)
    (hl : l ≠ []) (hctx : s.in_report_context = false) (h : step s l = .ok s1) :
    s1.in_report_context = false ∧ s1.event_reports = s.event_reports ∧
    s1.cur_event_report = s.cur_event_report ∧ s1.common = s.common ∧
    ∃ f : EventReport → EventReport,
      s1.reports = listModify s.reports s.cur_event_report f ∧
      ∀ x, (f x).context = x.context := by
  rcases step_ok_shape s l s1 h with
    ⟨hle, _, _⟩ | ⟨hle, _, _⟩ | ⟨_, hct, _, _⟩ | ⟨_, hct, _, _⟩ |
    ⟨_, _, hs1⟩ | ⟨_, _, hs1⟩ | ⟨_, _, v, hs1⟩ | ⟨_, _, _, v, hs1⟩ |
    ⟨_, _, v, nid, nm, hs1⟩ | ⟨_, _, v, pct, nm, nid, iid, hpp, hcase⟩
  · exact absurd hle hl
  · exact absurd hle hl
  · rw [hct] at hctx; cases hctx
  · rw [hct] at hctx; cases hctx
  · subst hs1
    exact ⟨hctx, rfl, rfl, rfl, _, rfl, fun x => rfl⟩
  · subst hs1
    exact ⟨hctx, rfl, rfl, rfl, _, rfl, fun x => rfl⟩
  · subst hs1
    exact ⟨hctx, rfl, rfl, rfl, fun x => x, (listModify_id _ _).symm, fun x => rfl⟩
  · subst hs1
    exact ⟨hctx, rfl, rfl, rfl, fun x => x, (listModify_id _ _).symm, fun x => rfl⟩
  · subst hs1
    exact ⟨hctx, rfl, rfl, rfl, fun x => x, (listModify_id _ _).symm, fun x => rfl⟩
  · rcases hcase with hs1 | ⟨depth, pid, hs1⟩ <;> subst hs1 <;>
      exact ⟨hctx, rfl, rfl, rfl, fun x => x, (listModify_id _ _).symm, fun x => rfl⟩

theorem runLines_body (ls : List (List Char)) (s s1 : PyState)
    (hls : ∀ l ∈ ls, l ≠ []) (hctx : s.in_report_context = false)
    (h : runLines s ls = .ok s1) :
    s1.in_report_context = false ∧ s1.event_reports = s.event_reports ∧
    s1.cur_event_report = s.cur_event_report ∧ s1.common = s.common ∧
    ∃ f : EventReport → EventReport,
      s1.reports = listModify s.reports s.cur_event_report f ∧
      ∀ x, (f x).context = x.context := by
  induction ls generalizing s with
  | nil =>
    simp only [runLines] at h
    cases h
    exact ⟨hctx, rfl, rfl, rfl, fun x => x, (listModify_id _ _).symm, fun x => rfl⟩
  | cons l t ih =>
    simp only [runLines] at h
    cases hst : step s l with
    | error e => rw [hst] at h; cases h
    | ok s2 =>
      rw [hst] at h
      obtain ⟨h1, h2, h3, h4, f1, h5, h6⟩ :=
        step_body s l s2 (hls l (List.mem_cons_self l t)) hctx hst
      obtain ⟨g1, g2, g3, g4, f2, g5, g6⟩ :=
        ih s2 (fun x hx => hls x (List.mem_cons_of_mem _ hx)) h1 h
      refine ⟨g1, g2.trans h2, g3.trans h3, g4.trans h4,
        fun x => f2 (f1 x), ?_, fun x => (g6 (f1 x)).trans (h6 x)⟩
      rw [g5, h5, h3, listModify_comp]

theorem step_flag_mono (s : PyState) (l : List Char) (s1 : PyState)
    (h : step s l = .ok s1) (hf : s.has_skipped_callgraph = true) :
    s1.has_skipped_callgraph = true := by
  rcases step_ok_shape s l s1 h with
    ⟨_, _, hs1⟩ | ⟨_, _, hs1⟩ | ⟨_, _, _, hs1⟩ | ⟨_, _, _, hs1⟩ |
    ⟨_, _, hs1⟩ | ⟨_, _, hs1⟩ | ⟨_, _, v, hs1⟩ | ⟨_, _, _, v, hs1⟩ |
    ⟨_, _, v, nid, nm, hs1⟩ | ⟨_, _, v, pct, nm, nid, iid, hpp, hcase⟩
  · subst hs1; exact hf
  · subst hs1; exact hf
  · subst hs1; exact hf
  · subst hs1; exact hf
  · subst hs1; exact hf
  · subst hs1; exact hf
  · subst hs1; exact hf
  · subst hs1; rfl
  · subst hs1; exact hf
  · rcases hcase with hs1 | ⟨depth, pid, hs1⟩ <;> subst hs1 <;> exact hf

theorem step_flag_stable (s : PyState) (l : List Char) (s1 : PyState)
    (h : step s l = .ok s1) (hm : hasSub marker l = false) :
    s1.has_skipped_callgraph = s.has_skipped_callgraph := by
  rcases step_ok_shape s l s1 h with
    ⟨_, _, hs1⟩ | ⟨_, _, hs1⟩ | ⟨_, _, _, hs1⟩ | ⟨_, _, _, hs1⟩ |
    ⟨_, _, hs1⟩ | ⟨_, _, hs1⟩ | ⟨_, _, v, hs1⟩ | ⟨_, _, hmk, v, hs1⟩ |
    ⟨_, _, v, nid, nm, hs1⟩ | ⟨_, _, v, pct, nm, nid, iid, hpp, hcase⟩
  · subst hs1; rfl
  · subst hs1; rfl
  · subst hs1; rfl
  · subst hs1; rfl
  · subst hs1; rfl
  · subst hs1; rfl
  · subst hs1; rfl
  · rw [hmk] at hm; cases hm
  · subst hs1; rfl
  · rcases hcase with hs1 | ⟨depth, pid, hs1⟩ <;> subst hs1 <;> rfl

theorem runLines_flag_mono (ls : List (List Char)) (s s1 : PyState)
    (h : runLines s ls = .ok s1) (hf : s.has_skipped_callgraph = true) :
    s1.has_skipped_callgraph = true := by
  induction ls generalizing s with
  | nil => simp only [runLines] at h; cases h; exact hf
  | cons l t ih =>
    simp only [runLines] at h
    cases hst : step s l with
    | error e => rw [hst] at h; cases h
    | ok s2 =>
      rw [hst] at h
      exact ih s2 h (step_flag_mono s l s2 hst hf)

theorem runLines_flag_stable (ls : List (List Char)) (s s1 : PyState)
    (hm : ∀ l ∈ ls, hasSub marker l = false)
    (h : runLines s ls = .ok s1) :
    s1.has_skipped_callgraph = s.has_skipped_callgraph := by
  induction ls generalizing s with
  | nil => simp only [runLines] at h; cases h; rfl
  | cons l t ih =>
    simp only [runLines] at h
    cases hst : step s l with
    | error e => rw [hst] at h; cases h
    | ok s2 =>
      rw [hst] at h
      rw [ih s2 (fun x hx => hm x (List.mem_cons_of_mem _ hx)) h]
      exact step_flag_stable s l s2 hst (hm l (List.mem_cons_self l t))

theorem splitCommon_sub (lines : List (List Char)) :
    ∀ x ∈ (splitCommon lines).2, x ∈ lines := by
  induction lines with
  | nil => simp [splitCommon]
  | cons l rest ih =>
    intro x hx
    by_cases hc : l = [] || isPre eventTok l
    · simp only [splitCommon, hc, if_true] at hx
      exact hx
    · simp only [splitCommon, hc, if_false] at hx
      exact List.mem_cons_of_mem _ (ih x hx)

theorem exists_in_modify (R : List EventReport) (k i : Nat) (f : EventReport → EventReport)
    (hf : ∀ x, ∃ t, (f x).context = x.context ++ t) (hik : i < R.length)
    (hx : ∃ x ∈ (R.getD i default).context, isPre eventTok x = true) :
    ∃ x ∈ ((listModify R k f).getD i default).context, isPre eventTok x = true := by
  by_cases hk : k = i
  · subst hk
    rw [listModify_getD R k f default hik]
    obtain ⟨t, ht⟩ := hf (R.getD k default)
    rw [ht]
    obtain ⟨x, hmem, hpre⟩ := hx
    exact ⟨x, List.mem_append_left _ hmem, hpre⟩
  · rw [listModify_getD_ne R k i f default hk]
    exact hx

theorem step_event_inv (s : PyState) (l : List Char) (s1 : PyState)
    (h : step s l = .ok s1)
    (hcur : s.cur_event_report < s.reports.length)
    (hids : ∀ i ∈ s.event_reports, i < s.reports.length)
    (hev : ∀ i ∈ s.event_reports,
      ∃ x ∈ (s.reports.getD i default).context, isPre eventTok x = true) :
    s1.cur_event_report < s1.reports.length ∧
    (∀ i ∈ s1.event_reports, i < s1.reports.length) ∧
    (∀ i ∈ s1.event_reports,
      ∃ x ∈ (s1.reports.getD i default).context, isPre eventTok x = true) := by
  rcases step_ok_shape s l s1 h with
    ⟨_, _, hs1⟩ | ⟨_, _, hs1⟩ | ⟨_, _, hpre, hs1⟩ | ⟨_, _, _, hs1⟩ |
    ⟨_, _, hs1⟩ | ⟨_, _, hs1⟩ | ⟨_, _, v, hs1⟩ | ⟨_, _, _, v, hs1⟩ |
    ⟨_, _, v, nid, nm, hs1⟩ | ⟨_, _, v, pct, nm, nid, iid, hpp, hcase⟩
  · subst hs1; exact ⟨hcur, hids, hev⟩
  · subst hs1
    refine ⟨by simp, fun i hi => ?_, fun i hi => ?_⟩
    · have := hids i hi
      simp only [List.length_append, List.length_cons, List.length_nil]
      omega
    · rw [getD_append_left _ _ _ _ (hids i hi)]
      exact hev i hi
  · subst hs1
    refine ⟨by simpa [listModify_length] using hcur, fun i hi => ?_, fun i hi => ?_⟩
    · rw [listModify_length]
      rcases List.mem_append.mp hi with hi | hi
      · exact hids i hi
      · rw [List.mem_singleton.mp hi]; exact hcur
    · rcases List.mem_append.mp hi with hi | hi
      · exact exists_in_modify _ _ _ _ (fun x => ⟨[l], rfl⟩) (hids i hi) (hev i hi)
      · rw [List.mem_singleton.mp hi]
        rw [listModify_getD _ _ _ _ hcur]
        exact ⟨l, List.mem_append_right _ (List.mem_singleton_self l), hpre⟩
  · subst hs1
    refine ⟨by simpa [listModify_length] using hcur,
      fun i hi => by rw [listModify_length]; exact hids i hi,
      fun i hi => exists_in_modify _ _ _ _ (fun x => ⟨[l], rfl⟩) (hids i hi) (hev i hi)⟩
  · subst hs1
    refine ⟨by simpa [listModify_length] using hcur,
      fun i hi => by rw [listModify_length]; exact hids i hi,
      fun i hi => exists_in_modify _ _ _ _ (fun x => ⟨[], by simp⟩) (hids i hi) (hev i hi)⟩
  · subst hs1
    refine ⟨by simpa [listModify_length] using hcur,
      fun i hi => by rw [listModify_length]; exact hids i hi,
      fun i hi => exists_in_modify _ _ _ _ (fun x => ⟨[], by simp⟩) (hids i hi) (hev i hi)⟩
  · subst hs1; exact ⟨hcur, hids, hev⟩
  · subst hs1; exact ⟨hcur, hids, hev⟩
  · subst hs1; exact ⟨hcur, hids, hev⟩
  · rcases hcase with hs1 | ⟨depth, pid, hs1⟩ <;> subst hs1 <;> exact ⟨hcur, hids, hev⟩

theorem runLines_event_inv (ls : List (List Char)) (s s1 : PyState)
    (h : runLines s ls = .ok s1)
    (hcur : s.cur_event_report < s.reports.length)
    (hids : ∀ i ∈ s.event_reports, i < s.reports.length)
    (hev : ∀ i ∈ s.event_reports,
      ∃ x ∈ (s.reports.getD i default).context, isPre eventTok x = true) :
    (∀ i ∈ s1.event_reports, i < s1.reports.length) ∧
    (∀ i ∈ s1.event_reports,
      ∃ x ∈ (s1.reports.getD i default).context, isPre eventTok x = true) := by
  induction ls generalizing s with
  | nil => simp only [runLines] at h; cases h; exact ⟨hids, hev⟩
  | cons l t ih =>
    simp only [runLines] at h
    cases hst : step s l with
    | error e => rw [hst] at h; cases h
    | ok s2 =>
      rw [hst] at h
      obtain ⟨h1, h2, h3⟩ := step_event_inv s l s2 hst hcur hids hev
      exact ih s2 h h1 h2 h3

theorem step_nodes_nonneg (s : PyState) (l : List Char) (s1 : PyState)
    (h : step s l = .ok s1)
    (hn : ∀ n ∈ s.nodes, 0 ≤ n.percentage) :
    ∀ n ∈ s1.nodes, 0 ≤ n.percentage := by
  rcases step_ok_shape s l s1 h with
    ⟨_, _, hs1⟩ | ⟨_, _, hs1⟩ | ⟨_, _, _, hs1⟩ | ⟨_, _, _, hs1⟩ |
    ⟨_, _, hs1⟩ | ⟨_, _, hs1⟩ | ⟨_, _, v, hs1⟩ | ⟨_, _, _, v, hs1⟩ |
    ⟨_, _, v, nid, nm, hs1⟩ | ⟨_, _, v, pct, nm, nid, iid, hpp, hcase⟩
  · subst hs1; exact hn
  · subst hs1; exact hn
  · subst hs1; exact hn
  · subst hs1; exact hn
  · subst hs1; exact hn
  · subst hs1; exact hn
  · subst hs1; exact hn
  · subst hs1; exact hn
  · subst hs1
    exact listModify_mem s.nodes nid _ _ hn (fun x hx => hx)
  · have hpct : 0 ≤ pct := parsePercent_nonneg _ _ _ hpp
    rcases hcase with hs1 | ⟨depth, pid, hs1⟩ <;> subst hs1
    · intro n hmem
      rcases List.mem_append.mp hmem with hmem | hmem
      · exact hn n hmem
      · rw [List.mem_singleton.mp hmem]; exact hpct
    · intro n hmem
      rcases List.mem_append.mp hmem with hmem | hmem
      · exact listModify_mem s.nodes pid
          (fun n => { n with children := n.children ++ [nid] }) _ hn (fun x hx => hx) n hmem
      · rw [List.mem_singleton.mp hmem]; exact hpct

theorem runLines_nodes_nonneg (ls : List (List Char)) (s s1 : PyState)
    (h : runLines s ls = .ok s1)
    (hn : ∀ n ∈ s.nodes, 0 ≤ n.percentage) :
    ∀ n ∈ s1.nodes, 0 ≤ n.percentage := by
  induction ls generalizing s with
  | nil => simp only [runLines] at h; cases h; exact hn
  | cons l t ih =>
    simp only [runLines] at h
    cases hst : step s l with
    | error e => rw [hst] at h; cases h
    | ok s2 =>
      rw [hst] at h
      exact ih s2 h (step_nodes_nonneg s l s2 hst hn)

/-! ### Step equations for single branches -/

theorem step_blank_toBody (s : PyState) (hctx : s.in_report_context = true) :
    step s [] = .ok { s with in_report_context := false } := by
  simp [step, hctx]

theorem step_blank_toCtx (s : PyState) (hctx : s.in_report_context = false) :
    step s [] = .ok { s with
      in_report_context := true,
      reports := s.reports ++
        [{ context := s.common, title_line := none, report_items := [] }],
      cur_event_report := s.reports.length } := by
  simp [step, hctx]

theorem step_eventLine (s : PyState) (c : Char) (cs : List Char)
    (hctx : s.in_report_context = true) (hpre : isPre eventTok (c :: cs) = true) :
    step s (c :: cs) = .ok { s with
      reports := listModify s.reports s.cur_event_report
        (fun r => { r with context := r.context ++ [c :: cs] }),
      event_reports := s.event_reports ++ [s.cur_event_report] } := by
  simp [step, hctx, hpre]

theorem step_ctxLine (s : PyState) (c : Char) (cs : List Char)
    (hctx : s.in_report_context = true) (hpre : isPre eventTok (c :: cs) = false) :
    step s (c :: cs) = .ok { s with
      reports := listModify s.reports s.cur_event_report
        (fun r => { r with context := r.context ++ [c :: cs] }) } := by
  simp [step, hctx, hpre]

theorem runLines_cons_ok (s s2 : PyState) (l : List Char) (t : List (List Char))
    (h : step s l = .ok s2) : runLines s (l :: t) = runLines s2 t := by
  simp only [runLines, h]

theorem runLines_ctx (ls : List (List Char)) :
    ∀ s : PyState, s.in_report_context = true →
      (∀ l ∈ ls, l ≠ [] ∧ isPre eventTok l = false) →
      runLines s ls = .ok { s with
        reports := listModify s.reports s.cur_event_report
          (fun r => { r with context := r.context ++ ls }) } := by
  induction ls with
  | nil =>
    intro s hctx hls
    have hfun : (fun r : EventReport => { r with context := r.context ++ ([] : List (List Char)) }) =
        fun r => r := by
      funext r
      simp
    simp [runLines, hfun, listModify_id]
  | cons l t ih =>
    intro s hctx hls
    obtain ⟨hne, hpre⟩ := hls l (List.mem_cons_self l t)
    cases l with
    | nil => exact absurd rfl hne
    | cons c cs =>
      rw [runLines_cons_ok _ _ _ _ (step_ctxLine s c cs hctx hpre)]
      rw [ih { s with
            reports := listModify s.reports s.cur_event_report
              (fun r => { r with context := r.context ++ [c :: cs] }) }
          hctx (fun x hx => (hls x (List.mem_cons_of_mem _ hx)))]
      rw [listModify_comp]
      simp

theorem contRun (ls : List (List Char)) :
    ∀ (s : PyState) (nid : Nat),
      s.in_report_context = false →
      (s.reports.getD s.cur_event_report default).title_line ≠ none →
      s.last_node = some nid →
      (∀ l ∈ ls, contLine l = true) →
      runLines s ls = .ok { s with
        vertical_columns := ls.foldl updateCols s.vertical_columns,
        nodes := listModify s.nodes nid (fun n =>
          { n with call_stack := n.call_stack ++ ls.map (pyStrip blankSet) }) } := by
  induction ls with
  | nil =>
    intro s nid hctx htitle hlast hls
    have hfun : (fun n : CallTreeNode =>
        { n with call_stack := n.call_stack ++ ([] : List (List Char)).map (pyStrip blankSet) }) =
        fun n => n := by
      funext n
      simp
    simp [runLines, hfun, listModify_id]
  | cons l t ih =>
    intro s nid hctx htitle hlast hls
    have hcont := hls l (List.mem_cons_self l t)
    cases l with
    | nil => simp [contLine] at hcont
    | cons c cs =>
      simp only [contLine, Bool.and_eq_true] at hcont
      obtain ⟨⟨⟨hsp, hblank⟩, hmark⟩, hdash⟩ := hcont
      have hblank2 : pyStrip blankSet (c :: cs) ≠ [] := by
        intro hx
        rw [hx] at hblank
        simp at hblank
      have hmark2 : hasSub marker (c :: cs) = false := by
        simpa using hmark
      have hdash2 : firstIdx '-' (c :: cs) = none :=
        Option.isNone_iff_eq_none.mp hdash
      have htitle2 : (s.reports[s.cur_event_report]?.getD default).title_line ≠ none := by
        simpa using htitle
      have hstep : step s (c :: cs) = .ok { s with
          vertical_columns := updateCols s.vertical_columns (c :: cs),
          nodes := listModify s.nodes nid (fun n =>
            { n with call_stack := n.call_stack ++ [pyStrip blankSet (c :: cs)] }) } := by
        simp [step, stepDetail, stepCall, hctx, htitle2, hsp, hblank2, hmark2, hdash2, hlast]
      rw [runLines_cons_ok _ _ _ _ hstep]
      rw [ih { s with
            vertical_columns := updateCols s.vertical_columns (c :: cs),
            nodes := listModify s.nodes nid (fun n =>
              { n with call_stack := n.call_stack ++ [pyStrip blankSet (c :: cs)] }) }
          nid hctx htitle hlast (fun x hx => hls x (List.mem_cons_of_mem _ hx))]
      rw [listModify_comp]
      simp

theorem range_map_shift (n k : Nat) :
    (List.range (n + 1)).map (fun i => k + i) = k :: (List.range n).map (fun i => k + 1 + i) := by
  rw [List.range_succ_eq_map, List.map_cons, List.map_map]
  refine congrArg₂ List.cons (by omega) (List.map_congr_left ?_)
  intro a ha
  simp [Function.comp]
  omega

theorem splitCommon_wf (l : List Char) (t : List (List Char)) :
    ∀ pre : List (List Char), pre.all wfCtxLine = true →
      (l = [] ∨ isPre eventTok l = true) →
      splitCommon (pre ++ l :: t) = (pre, l :: t) := by
  intro pre
  induction pre with
  | nil =>
    intro _ hl
    rcases hl with hl | hl
    · subst hl
      simp [splitCommon]
    · simp [splitCommon, hl]
  | cons p ps ih =>
    intro hwf hl
    have hp : wfCtxLine p = true :=
      List.all_eq_true.mp hwf p (List.mem_cons_self p ps)
    have hps : ps.all wfCtxLine = true :=
      List.all_eq_true.mpr fun x hx =>
        List.all_eq_true.mp hwf x (List.mem_cons_of_mem _ hx)
    simp only [wfCtxLine, Bool.and_eq_true] at hp
    obtain ⟨hp1, hp2⟩ := hp
    have hp1a : ¬(p = []) := by
      intro hx
      rw [hx] at hp1
      simp at hp1
    have hp2a : isPre eventTok p = false := by
      simpa using hp2
    have hcond : (decide (p = []) || isPre eventTok p) = false := by
      simp [hp1a, hp2a]
    simp only [List.cons_append, splitCommon, hcond, Bool.false_eq_true, if_false]
    show (p :: (splitCommon (ps ++ l :: t)).1, (splitCommon (ps ++ l :: t)).2) = (p :: ps, l :: t)
    rw [ih hps hl]

theorem renderBlocks_cons (b : EventBlock) (bs : List EventBlock) :
    ∃ t, renderBlocks (b :: bs) = b.eventLine :: t := by
  cases bs with
  | nil => exact ⟨b.extraCtx ++ [[]] ++ b.body, by simp [renderBlocks, renderBlock]⟩
  | cons b2 bs2 =>
    exact ⟨b.extraCtx ++ [[]] ++ b.body ++ [[]] ++ renderBlocks (b2 :: bs2), by
      simp [renderBlocks, renderBlock]⟩

theorem runLines_append_ok (xs ys : List (List Char)) (s sA : PyState)
    (h : runLines s xs = .ok sA) : runLines s (xs ++ ys) = runLines sA ys := by
  rw [runLines_append, h]

theorem runBlock (b : EventBlock) (R : List EventReport) (s s1 : PyState)
    (hwf : wfBlock b = true)
    (hctx : s.in_report_context = true)
    (hrep : s.reports = R ++ [{ context := s.common, title_line := none, report_items := [] }])
    (hcur : s.cur_event_report = R.length)
    (h : runLines s (renderBlock b) = .ok s1) :
    ∃ r : EventReport, s1.reports = R ++ [r] ∧
      r.context = s.common ++ b.eventLine :: b.extraCtx ∧
      s1.event_reports = s.event_reports ++ [R.length] ∧
      s1.in_report_context = false ∧
      s1.cur_event_report = R.length ∧
      s1.common = s.common := by
  simp only [wfBlock, Bool.and_eq_true] at hwf
  obtain ⟨⟨⟨hev, hex⟩, hbne⟩, hbnb⟩ := hwf
  have hex2 : ∀ l ∈ b.extraCtx, l ≠ [] ∧ isPre eventTok l = false := by
    intro l hl
    have hw := List.all_eq_true.mp hex l hl
    simp only [wfCtxLine, Bool.and_eq_true] at hw
    refine ⟨fun hx => ?_, by simpa using hw.2⟩
    rw [hx] at hw
    simp at hw
  have hbody2 : ∀ l ∈ b.body, l ≠ [] := by
    intro l hl
    have hw := List.all_eq_true.mp hbnb l hl
    intro hx
    rw [hx] at hw
    simp at hw
  cases hbe : b.eventLine with
  | nil =>
    rw [hbe] at hev
    exact absurd hev (by decide)
  | cons c cs =>
    rw [hbe] at hev
    have hsplit : renderBlock b = ((c :: cs) :: b.extraCtx) ++ ([] :: b.body) := by
      simp [renderBlock, hbe]
    rw [hsplit] at h
    have hA : runLines s ((c :: cs) :: b.extraCtx) = .ok { s with
        reports := listModify s.reports s.cur_event_report (fun r =>
          { r with context := (r.context ++ [c :: cs]) ++ b.extraCtx }),
        event_reports := s.event_reports ++ [s.cur_event_report] } := by
      rw [runLines_cons_ok _ _ _ _ (step_eventLine s c cs hctx hev)]
      rw [runLines_ctx b.extraCtx { s with
            reports := listModify s.reports s.cur_event_report
              (fun r => { r with context := r.context ++ [c :: cs] }),
            event_reports := s.event_reports ++ [s.cur_event_report] }
          hctx hex2]
      rw [listModify_comp]
    rw [runLines_append_ok _ _ _ _ hA] at h
    set SA : PyState := { s with
      reports := listModify s.reports s.cur_event_report (fun r =>
        { r with context := (r.context ++ [c :: cs]) ++ b.extraCtx }),
      event_reports := s.event_reports ++ [s.cur_event_report] } with hSA
    rw [runLines_cons_ok _ _ _ _ (step_blank_toBody SA hctx)] at h
    obtain ⟨g1, g2, g3, g4, f, g5, g6⟩ := runLines_body b.body _ s1 hbody2 rfl h
    refine ⟨f { context := (s.common ++ [c :: cs]) ++ b.extraCtx,
                title_line := none, report_items := [] }, ?_, ?_, ?_, g1, ?_, ?_⟩
    · rw [g5]
      show listModify
        (listModify s.reports s.cur_event_report (fun r =>
          { r with context := (r.context ++ [c :: cs]) ++ b.extraCtx }))
        s.cur_event_report f = _
      rw [listModify_comp, hrep, hcur, listModify_append_last]
    · rw [g6]
      exact (List.append_cons _ _ _).symm
    · rw [g2]
      show s.event_reports ++ [s.cur_event_report] = _
      rw [hcur]
    · rw [g3]
      exact hcur
    · exact g4

theorem runBlocks (bs : List EventBlock) :
    ∀ (b : EventBlock) (R : List EventReport) (s s1 : PyState),
      wfBlock b = true → bs.all wfBlock = true →
      s.in_report_context = true →
      s.reports = R ++ [{ context := s.common, title_line := none, report_items := [] }] →
      s.cur_event_report = R.length →
      runLines s (renderBlocks (b :: bs)) = .ok s1 →
      ∃ rs : List EventReport, s1.reports = R ++ rs ∧
        rs.map (fun r => r.context) =
          (b :: bs).map (fun blk => s.common ++ blk.eventLine :: blk.extraCtx) ∧
        s1.event_reports = s.event_reports ++
          (List.range (b :: bs).length).map (fun i => R.length + i) ∧
        s1.common = s.common := by
  induction bs with
  | nil =>
    intro b R s s1 hwb _ hctx hrep hcur h
    obtain ⟨r, h1, h2, h3, _, _, h6⟩ := runBlock b R s s1 hwb hctx hrep hcur h
    refine ⟨[r], h1, ?_, ?_, h6⟩
    · simp [h2]
    · simpa using h3
  | cons b2 bs2 ih =>
    intro b R s s1 hwb hall hctx hrep hcur h
    simp only [List.all_cons, Bool.and_eq_true] at hall
    obtain ⟨hwb2, hall3⟩ := hall
    have hsp : renderBlocks (b :: b2 :: bs2) =
        renderBlock b ++ ([] :: renderBlocks (b2 :: bs2)) := by
      simp [renderBlocks]
    rw [hsp] at h
    rw [runLines_append] at h
    cases hfb : runLines s (renderBlock b) with
    | error e =>
      rw [hfb] at h
      simp at h
    | ok sA =>
      rw [hfb] at h
      replace h : runLines sA ([] :: renderBlocks (b2 :: bs2)) = .ok s1 := h
      obtain ⟨r, h1, h2, h3, h4, h5, h6⟩ := runBlock b R s sA hwb hctx hrep hcur hfb
      rw [runLines_cons_ok _ _ _ _ (step_blank_toCtx sA h4)] at h
      have hrep2 : ({ sA with
          in_report_context := true,
          reports := sA.reports ++
            [{ context := sA.common, title_line := none, report_items := [] }],
          cur_event_report := sA.reports.length } : PyState).reports =
          (R ++ [r]) ++ [{ context := sA.common, title_line := none, report_items := [] }] := by
        show sA.reports ++ _ = _
        rw [h1]
      have hcur2 : ({ sA with
          in_report_context := true,
          reports := sA.reports ++
            [{ context := sA.common, title_line := none, report_items := [] }],
          cur_event_report := sA.reports.length } : PyState).cur_event_report =
          (R ++ [r]).length := by
        show sA.reports.length = _
        rw [h1]
      obtain ⟨rs2, k1, k2, k3, k4⟩ := ih b2 (R ++ [r]) _ s1 hwb2 hall3 rfl hrep2 hcur2 h
      have k4' : s1.common = s.common := k4.trans h6
      have k2' : rs2.map (fun r => r.context) =
          (b2 :: bs2).map (fun blk => s.common ++ blk.eventLine :: blk.extraCtx) := by
        rw [← h6]
        exact k2
      have k3' : s1.event_reports = sA.event_reports ++
          (List.range (b2 :: bs2).length).map (fun i => (R ++ [r]).length + i) := k3
      refine ⟨r :: rs2, ?_, ?_, ?_, k4'⟩
      · rw [k1, List.append_assoc]
        rfl
      · simp only [List.map_cons]
        exact congrArg₂ List.cons h2 k2'
      · rw [k3', h3]
        have hlen : (List.range (b2 :: bs2).length).map (fun i => (R ++ [r]).length + i) =
            (List.range (b2 :: bs2).length).map (fun i => R.length + 1 + i) := by
          refine List.map_congr_left fun a _ => ?_
          simp [List.length_append]
        rw [hlen]
        have hrange : (List.range ((b :: b2 :: bs2)).length).map (fun i => R.length + i) =
            R.length :: (List.range ((b2 :: bs2)).length).map (fun i => R.length + 1 + i) := by
          show (List.range ((b2 :: bs2).length + 1)).map (fun i => R.length + i) = _
          exact range_map_shift _ _
        rw [hrange]
        rw [List.append_assoc]
        rfl

/-- Running a context section (an `Event:` marker line followed by further
context lines) from a state in context mode: the lines are appended to the
current report's context washed through the arena, and the current report's
index is appended to the result list once, by the marker line. -/
theorem runCtxSection (s : PyState) (c : Char) (cs : List Char)
    (extra : List (List Char))
    (hctx : s.in_report_context = true)
    (hev : isPre eventTok (c :: cs) = true)
    (hex : ∀ l ∈ extra, l ≠ [] ∧ isPre eventTok l = false) :
    runLines s ((c :: cs) :: extra) = .ok { s with
      reports := listModify s.reports s.cur_event_report (fun r =>
        { r with context := (r.context ++ [c :: cs]) ++ extra }),
      event_reports := s.event_reports ++ [s.cur_event_report] } := by
  rw [runLines_cons_ok _ _ _ _ (step_eventLine s c cs hctx hev)]
  rw [runLines_ctx extra { s with
        reports := listModify s.reports s.cur_event_report
          (fun r => { r with context := r.context ++ [c :: cs] }),
        event_reports := s.event_reports ++ [s.cur_event_report] }
      hctx hex]
  rw [listModify_comp]

/-- A context-only first event block (marker line plus further context lines,
no body) followed by TWO consecutive blank lines: the first blank flips to
body mode with the body still empty, the second blank flips back to context
mode and allocates a fresh report, so the remaining lines are parsed from a
state holding the completed first report and a fresh current one. -/
theorem runFirstCtxBlock (pre : List (List Char)) (c : Char) (cs : List Char)
    (extra : List (List Char)) (zs : List (List Char))
    (hev : isPre eventTok (c :: cs) = true)
    (hex : ∀ l ∈ extra, l ≠ [] ∧ isPre eventTok l = false) :
    runLines (initState pre) ((c :: cs) :: (extra ++ [] :: [] :: zs)) =
      runLines
        { nodes := [], items := [],
          reports := [{ context := (pre ++ [c :: cs]) ++ extra, title_line := none,
                        report_items := [] },
                      { context := pre, title_line := none, report_items := [] }],
          event_reports := [0], in_report_context := true, cur_event_report := 1,
          cur_report_item := none, call_tree_stack := [], vertical_columns := [],
          last_node := none, has_skipped_callgraph := false, common := pre } zs := by
  have hA : runLines (initState pre) ((c :: cs) :: extra) =
      .ok
        { nodes := [], items := [],
          reports := [{ context := (pre ++ [c :: cs]) ++ extra, title_line := none,
                        report_items := [] }],
          event_reports := [0], in_report_context := true, cur_event_report := 0,
          cur_report_item := none, call_tree_stack := [], vertical_columns := [],
          last_node := none, has_skipped_callgraph := false, common := pre } :=
    runCtxSection (initState pre) c cs extra rfl hev hex
  show runLines (initState pre) (((c :: cs) :: extra) ++ ([] :: [] :: zs)) = _
  rw [runLines_append_ok _ _ _ _ hA]
  rw [runLines_cons_ok _ _ _ _ (step_blank_toBody _ rfl)]
  rw [runLines_cons_ok _ _ _ _ (step_blank_toCtx _ rfl)]
  rfl

/-! ### Claim C1 -/

/-- Claim C1, counterexample: the input `Event: A` / blank / `title` / `" x"`
has well-formed block structure with one event block (the parenthetical of the
claim), yet `parse_event_reports` raises AttributeError on the indented body
line (a continuation line before any node exists) instead of returning one
EventReport. -/
theorem c1_counterexample :
    wfInput [] [{ eventLine := "Event: A".toList, extraCtx := [],
                  body := ["title".toList, " x".toList] }] = true ∧
    parse_event_reports (renderBlocks
      [{ eventLine := "Event: A".toList, extraCtx := [],
         body := ["title".toList, " x".toList] }]) = .error .attributeError := by
  exact ⟨by decide, rfl⟩

/-- Claim C1 (amended): for every input whose block structure is well formed
(each event block begins with a line starting with `Event:`, single blank
lines separate context sections from body sections and consecutive blocks),
if `parse_event_reports` returns at all (no detail line raised), it returns
exactly N EventReport values, the i-th carrying the i-th block's context, in
block order. -/
theorem c1_amended (pre : List (List Char)) (bs : List EventBlock)
    (res : List EventReport × Nat)
    (hwf : wfInput pre bs = true)
    (h : parse_event_reports (pre ++ renderBlocks bs) = .ok res) :
    res.1.length = bs.length ∧
    res.1.map (fun r => r.context) = bs.map (fun b => pre ++ b.eventLine :: b.extraCtx) := by
  simp only [wfInput, Bool.and_eq_true] at hwf
  obtain ⟨⟨hpre, hne⟩, hall⟩ := hwf
  cases bs with
  | nil => simp at hne
  | cons b bs2 =>
    simp only [List.all_cons, Bool.and_eq_true] at hall
    obtain ⟨hwb, hall2⟩ := hall
    have hev : isPre eventTok b.eventLine = true := by
      simp only [wfBlock, Bool.and_eq_true] at hwb
      exact hwb.1.1.1
    obtain ⟨tl, htl⟩ := renderBlocks_cons b bs2
    have hsc : splitCommon (pre ++ renderBlocks (b :: bs2)) =
        (pre, renderBlocks (b :: bs2)) := by
      rw [htl]
      exact splitCommon_wf b.eventLine tl pre hpre (Or.inr hev)
    have hwb' : wfBlock b = true := by
      simp only [List.all_cons, Bool.and_eq_true] at *
      exact hwb
    unfold parse_event_reports at h
    cases hpf : parseFinal (pre ++ renderBlocks (b :: bs2)) with
    | error e => rw [hpf] at h; cases h
    | ok sF =>
      rw [hpf] at h
      injection h with h1
      have hrun : runLines (initState pre) (renderBlocks (b :: bs2)) = .ok sF := by
        simp only [parseFinal] at hpf
        rw [hsc] at hpf
        exact hpf
      obtain ⟨rs, m1, m2, m3, m4⟩ :=
        runBlocks bs2 b [] (initState pre) sF hwb' hall2 rfl rfl rfl hrun
      have hlen : rs.length = (b :: bs2).length := by
        have hc := congrArg List.length m2
        simpa using hc
      have m1' : sF.reports = rs := by simpa using m1
      have m3' : sF.event_reports = List.range (b :: bs2).length := by
        rw [m3]
        show ([] : List Nat) ++ (List.range (b :: bs2).length).map (fun i => 0 + i) = _
        simp
      have hres1 : res.1 = rs := by
        rw [← h1]
        show sF.event_reports.map (fun i => sF.reports.getD i default) = rs
        rw [m3', m1', ← hlen]
        exact getD_range_map rs default
      refine ⟨by rw [hres1, hlen], ?_⟩
      rw [hres1, m2]
      rfl

/-- Witness for claim C1's amended theorem at the one-block input
`Event: A` / blank / `t`. -/
theorem c1_amended_witness :
    ([({ context := ["Event: A".toList], title_line := some "t".toList,
         report_items := [] } : EventReport)], (0 : Nat)).1.length =
      [({ eventLine := "Event: A".toList, extraCtx := [],
          body := ["t".toList] } : EventBlock)].length ∧
    ([({ context := ["Event: A".toList], title_line := some "t".toList,
         report_items := [] } : EventReport)], (0 : Nat)).1.map (fun r => r.context) =
      [({ eventLine := "Event: A".toList, extraCtx := [],
          body := ["t".toList] } : EventBlock)].map
        (fun b => [] ++ b.eventLine :: b.extraCtx) :=
  c1_amended [] [{ eventLine := "Event: A".toList, extraCtx := [], body := ["t".toList] }]
    ([{ context := ["Event: A".toList], title_line := some "t".toList, report_items := [] }], 0)
    (by decide) rfl

/-! ### Claim C2 -/

/-- Claim C2, counterexample: two well-formed bodied event blocks separated by
two consecutive blank lines yield ONE EventReport, not two: the first blank
after `i1` opens a new report, the second blank flips back to body mode, and
`Event: B` is consumed as the second report's title line, so the second report
is never appended to the result. -/
theorem c2_counterexample :
    parse_event_reports ["Event: A".toList, [], "t1".toList, "i1".toList, [], [],
        "Event: B".toList, [], "t2".toList, "i2".toList] =
      .ok ([{ context := ["Event: A".toList], title_line := some "t1".toList,
              report_items := [0] }], 0) := by
  rfl

/-- Claim C2 (amended): two consecutive blank lines between two event blocks
produce two independent EventReport values whenever the first block consists
of context lines only (its `Event:` marker line plus optional further context
lines, no body section): the two blanks toggle mode through an empty body
section and back into context, the first report is retained with no title
line and an empty items sequence, and the second block is parsed normally
into its own report. First conjunct: a context-only second block as well,
exact output with the second report's items empty, unconditionally. Second
conjunct: an arbitrary well-formed bodied second block, two reports carrying
the two blocks' context sequences, conditional on the parse returning. When
the first block has a body the claim fails (see the counterexample): the
second block's `Event:` line is consumed as a title line and only ONE report
is returned. -/
theorem c2_amended :
    (∀ (pre : List (List Char)) (c1 : Char) (cs1 : List Char) (extra1 : List (List Char))
        (c2 : Char) (cs2 : List Char) (extra2 : List (List Char)),
      pre.all wfCtxLine = true →
      isPre eventTok (c1 :: cs1) = true →
      (∀ l ∈ extra1, l ≠ [] ∧ isPre eventTok l = false) →
      isPre eventTok (c2 :: cs2) = true →
      (∀ l ∈ extra2, l ≠ [] ∧ isPre eventTok l = false) →
      parse_event_reports
          (pre ++ (c1 :: cs1) :: extra1 ++ [] :: [] :: (c2 :: cs2) :: extra2) =
        .ok ([{ context := pre ++ (c1 :: cs1) :: extra1, title_line := none,
                report_items := [] },
              { context := pre ++ (c2 :: cs2) :: extra2, title_line := none,
                report_items := [] }], 0)) ∧
    (∀ (pre : List (List Char)) (c1 : Char) (cs1 : List Char) (extra1 : List (List Char))
        (b2 : EventBlock) (res : List EventReport × Nat),
      pre.all wfCtxLine = true →
      isPre eventTok (c1 :: cs1) = true →
      (∀ l ∈ extra1, l ≠ [] ∧ isPre eventTok l = false) →
      wfBlock b2 = true →
      parse_event_reports (pre ++ (c1 :: cs1) :: extra1 ++ [] :: [] :: renderBlock b2) =
        .ok res →
      res.1.length = 2 ∧
      res.1.map (fun r => r.context) =
        [pre ++ (c1 :: cs1) :: extra1, pre ++ b2.eventLine :: b2.extraCtx]) := by
  constructor
  · intro pre c1 cs1 extra1 c2 cs2 extra2 hpre hev1 hex1 hev2 hex2
    have hassoc : pre ++ (c1 :: cs1) :: extra1 ++ [] :: [] :: (c2 :: cs2) :: extra2 =
        pre ++ (c1 :: cs1) :: (extra1 ++ [] :: [] :: (c2 :: cs2) :: extra2) := by
      simp [List.append_assoc]
    rw [hassoc]
    have hrun : runLines (initState pre)
        ((c1 :: cs1) :: (extra1 ++ [] :: [] :: (c2 :: cs2) :: extra2)) =
        .ok
          { nodes := [], items := [],
            reports := [{ context := (pre ++ [c1 :: cs1]) ++ extra1, title_line := none,
                          report_items := [] },
                        { context := (pre ++ [c2 :: cs2]) ++ extra2, title_line := none,
                          report_items := [] }],
            event_reports := [0, 1], in_report_context := true, cur_event_report := 1,
            cur_report_item := none, call_tree_stack := [], vertical_columns := [],
            last_node := none, has_skipped_callgraph := false, common := pre } := by
      rw [runFirstCtxBlock pre c1 cs1 extra1 ((c2 :: cs2) :: extra2) hev1 hex1]
      exact runCtxSection
        { nodes := [], items := [],
          reports := [{ context := (pre ++ [c1 :: cs1]) ++ extra1, title_line := none,
                        report_items := [] },
                      { context := pre, title_line := none, report_items := [] }],
          event_reports := [0], in_report_context := true, cur_event_report := 1,
          cur_report_item := none, call_tree_stack := [], vertical_columns := [],
          last_node := none, has_skipped_callgraph := false, common := pre }
        c2 cs2 extra2 rfl hev2 hex2
    have hpf : parseFinal
        (pre ++ (c1 :: cs1) :: (extra1 ++ [] :: [] :: (c2 :: cs2) :: extra2)) =
        .ok
          { nodes := [], items := [],
            reports := [{ context := (pre ++ [c1 :: cs1]) ++ extra1, title_line := none,
                          report_items := [] },
                        { context := (pre ++ [c2 :: cs2]) ++ extra2, title_line := none,
                          report_items := [] }],
            event_reports := [0, 1], in_report_context := true, cur_event_report := 1,
            cur_report_item := none, call_tree_stack := [], vertical_columns := [],
            last_node := none, has_skipped_callgraph := false, common := pre } := by
      simp only [parseFinal]
      rw [splitCommon_wf (c1 :: cs1) (extra1 ++ [] :: [] :: (c2 :: cs2) :: extra2) pre hpre
        (Or.inr hev1)]
      exact hrun
    unfold parse_event_reports
    rw [hpf]
    simp
  · intro pre c1 cs1 extra1 b2 res hpre hev1 hex1 hwb2 h
    have hassoc : pre ++ (c1 :: cs1) :: extra1 ++ [] :: [] :: renderBlock b2 =
        pre ++ (c1 :: cs1) :: (extra1 ++ [] :: [] :: renderBlock b2) := by
      simp [List.append_assoc]
    rw [hassoc] at h
    unfold parse_event_reports at h
    cases hpf : parseFinal (pre ++ (c1 :: cs1) :: (extra1 ++ [] :: [] :: renderBlock b2)) with
    | error e => rw [hpf] at h; cases h
    | ok sF =>
      rw [hpf] at h
      injection h with h1
      have hrun : runLines (initState pre)
          ((c1 :: cs1) :: (extra1 ++ [] :: [] :: renderBlock b2)) = .ok sF := by
        simp only [parseFinal] at hpf
        rw [splitCommon_wf (c1 :: cs1) (extra1 ++ [] :: [] :: renderBlock b2) pre hpre
          (Or.inr hev1)] at hpf
        exact hpf
      rw [runFirstCtxBlock pre c1 cs1 extra1 (renderBlock b2) hev1 hex1] at hrun
      obtain ⟨r, g1, g2, g3, _, _, _⟩ :=
        runBlock b2
          [{ context := (pre ++ [c1 :: cs1]) ++ extra1, title_line := none,
             report_items := [] }]
          { nodes := [], items := [],
            reports := [{ context := (pre ++ [c1 :: cs1]) ++ extra1, title_line := none,
                          report_items := [] },
                        { context := pre, title_line := none, report_items := [] }],
            event_reports := [0], in_report_context := true, cur_event_report := 1,
            cur_report_item := none, call_tree_stack := [], vertical_columns := [],
            last_node := none, has_skipped_callgraph := false, common := pre }
          sF hwb2 rfl rfl rfl hrun
      have hres : res.1 = [{ context := (pre ++ [c1 :: cs1]) ++ extra1, title_line := none,
                             report_items := [] }, r] := by
        rw [← h1]
        show sF.event_reports.map (fun i => sF.reports.getD i default) = _
        rw [g3, g1]
        simp
      refine ⟨by rw [hres]; rfl, ?_⟩
      rw [hres]
      simp [g2]

/-- Witness for claim C2's amended theorem. First conjunct at the degenerate
two-marker input `Event: A` / blank / blank / `Event: B`; second conjunct at
the input `Event: A` / blank / blank / `Event: B` / blank / `t2` / `i2`,
whose second block is bodied and parses to a report with title `t2` and one
item. -/
theorem c2_amended_witness :
    parse_event_reports ["Event: A".toList, [], [], "Event: B".toList] =
      .ok ([{ context := ["Event: A".toList], title_line := none, report_items := [] },
            { context := ["Event: B".toList], title_line := none, report_items := [] }],
           0) ∧
    (([{ context := ["Event: A".toList], title_line := none, report_items := [] },
       { context := ["Event: B".toList], title_line := some "t2".toList,
         report_items := [0] }], 0) : List EventReport × Nat).1.length = 2 ∧
    (([{ context := ["Event: A".toList], title_line := none, report_items := [] },
       { context := ["Event: B".toList], title_line := some "t2".toList,
         report_items := [0] }], 0) : List EventReport × Nat).1.map (fun r => r.context) =
      [["Event: A".toList], ["Event: B".toList]] :=
  ⟨c2_amended.1 [] 'E' "vent: A".toList [] 'E' "vent: B".toList []
      (by decide) (by decide) (by decide) (by decide) (by decide),
   c2_amended.2 [] 'E' "vent: A".toList []
      { eventLine := "Event: B".toList, extraCtx := [],
        body := ["t2".toList, "i2".toList] }
      ([{ context := ["Event: A".toList], title_line := none, report_items := [] },
        { context := ["Event: B".toList], title_line := some "t2".toList,
          report_items := [0] }], 0)
      (by decide) (by decide) (by decide) (by decide) rfl⟩

/-! ### Claim C3 -/

/-- Claim C3 (confirmed): a detail line whose first dash position lies
strictly left of every vertical column recorded so far for the current item
(after the line's own bars are recorded, per source lines 145-148) makes the
`assert depth != -1` fail: the whole parse aborts with AssertionError no
matter what lines remain, and no result is returned. -/
theorem c3_misaligned_dash_aborts (s : PyState) (c : Char) (cs : List Char)
    (rest : List (List Char)) (pos : Nat)
    (hctx : s.in_report_context = false)
    (htitle : (s.reports.getD s.cur_event_report default).title_line ≠ none)
    (hsp : pyIsSpace c = true)
    (hblank : pyStrip blankSet (c :: cs) ≠ [])
    (hmark : hasSub marker (c :: cs) = false)
    (hdash : firstIdx '-' (c :: cs) = some pos)
    (hleft : ∀ col ∈ updateCols s.vertical_columns (c :: cs), pos < col) :
    runLines s ((c :: cs) :: rest) = .error .assertionError := by
  have htitle2 : (s.reports[s.cur_event_report]?.getD default).title_line ≠ none := by
    simpa using htitle
  have hdep := depthOf_of_lt pos _ hleft
  have hstep : step s (c :: cs) = .error .assertionError := by
    simp [step, stepDetail, stepDash, hctx, htitle2, hsp, hblank, hmark, hdash, hdep]
  simp [runLines, hstep]

/-- Witness for claim C3: the line `" -x"` with no recorded columns aborts. -/
theorem c3_misaligned_dash_aborts_witness :
    runLines
      { nodes := [], items := [],
        reports := [{ context := [], title_line := some "t".toList, report_items := [] }],
        event_reports := [], in_report_context := false, cur_event_report := 0,
        cur_report_item := none, call_tree_stack := [], vertical_columns := [],
        last_node := none, has_skipped_callgraph := false, common := [] }
      [" -x".toList] = .error .assertionError :=
  c3_misaligned_dash_aborts _ ' ' ['-', 'x'] [] 1 rfl (by decide) (by decide)
    (by decide) (by decide) (by decide) (by decide)

/-! ### Claim C4 -/

/-- Claim C4, counterexample: after the `Event:` marker a further per-event
context line is appended to the already-returned report's context, so the LAST
element of the returned report's context is `"stat"`, which does not start
with `Event:`. -/
theorem c4_counterexample :
    parse_event_reports ["Event: A".toList, "stat".toList] =
      .ok ([{ context := ["Event: A".toList, "stat".toList], title_line := none,
              report_items := [] }], 0) ∧
    isPre eventTok "stat".toList = false := by
  exact ⟨rfl, by decide⟩

/-- Claim C4 (amended): every EventReport returned by `parse_event_reports`
has a non-empty context that CONTAINS a line starting with `Event:` (the last
element need not be that line, since per-event statistics lines may follow the
marker). -/
theorem c4_amended (lines : List (List Char)) (res : List EventReport × Nat)
    (h : parse_event_reports lines = .ok res) :
    ∀ r ∈ res.1, r.context ≠ [] ∧ ∃ x ∈ r.context, isPre eventTok x = true := by
  intro r hr
  unfold parse_event_reports at h
  cases hf : parseFinal lines with
  | error e => rw [hf] at h; cases h
  | ok s =>
    rw [hf] at h
    injection h with h1
    rw [← h1] at hr
    obtain ⟨i, hi, hri⟩ := List.mem_map.mp hr
    have hpf := hf
    simp only [parseFinal] at hpf
    obtain ⟨hids, hev⟩ := runLines_event_inv _ _ _ hpf (by simp [initState])
      (by simp [initState]) (by simp [initState])
    obtain ⟨x, hx, hpre⟩ := hev i hi
    rw [← hri]
    exact ⟨List.ne_nil_of_mem hx, x, hx, hpre⟩

/-- Witness for claim C4's amended theorem on the single-line input
`Event: A`. -/
theorem c4_amended_witness :
    ({ context := ["Event: A".toList], title_line := none,
       report_items := [] } : EventReport).context ≠ [] ∧
    ∃ x ∈ ({ context := ["Event: A".toList], title_line := none,
             report_items := [] } : EventReport).context, isPre eventTok x = true :=
  c4_amended ["Event: A".toList]
    ([{ context := ["Event: A".toList], title_line := none, report_items := [] }], 0)
    rfl _ (List.mem_singleton_self _)

/-! ### Claim C5 -/

/-- Claim C5, counterexample: the line `" | skipped in brief callgraph mode"`
is indented, non-blank after stripping and contains no dash — a continuation
line by the claim's definition — yet it appends nothing to the node created by
`" |-f"`: the node's frames stay `["f"]` (length 1, not 1 + 1); only the
skipped flag is set. -/
theorem c5_counterexample :
    parseFinal ["Event: A".toList, [], "t".toList, "i".toList, " |-f".toList,
        " | skipped in brief callgraph mode".toList] =
      .ok { nodes := [{ percentage := 100, call_stack := [['f']], children := [] }],
            items := [{ raw_line := ['i'], call_tree := some 0 }],
            reports := [{ context := ["Event: A".toList], title_line := some ['t'],
                          report_items := [0] }],
            event_reports := [0], in_report_context := false, cur_event_report := 0,
            cur_report_item := some 0, call_tree_stack := [(0, 0)],
            vertical_columns := [1], last_node := some 0,
            has_skipped_callgraph := true, common := [] } ∧
    pyIsSpace ' ' = true ∧
    pyStrip blankSet (" | skipped in brief callgraph mode".toList) ≠ [] ∧
    firstIdx '-' (" | skipped in brief callgraph mode".toList) = none := by
  exact ⟨rfl, by decide, by decide, by decide⟩

/-- Claim C5 (amended): after a dashed line created node `nid` (which is then
`last_node`), a run of k continuation lines — indented, non-blank after
stripping, containing no dash, and NOT containing the elided-subtree marker —
appends the k stripped names to that single node's frames in order, so its
frame count grows by exactly k. -/
theorem c5_amended (ls : List (List Char)) (s : PyState) (nid : Nat)
    (hctx : s.in_report_context = false)
    (htitle : (s.reports.getD s.cur_event_report default).title_line ≠ none)
    (hlast : s.last_node = some nid)
    (hnid : nid < s.nodes.length)
    (hls : ∀ l ∈ ls, contLine l = true) :
    runLines s ls = .ok { s with
      vertical_columns := ls.foldl updateCols s.vertical_columns,
      nodes := listModify s.nodes nid (fun n =>
        { n with call_stack := n.call_stack ++ ls.map (pyStrip blankSet) }) } ∧
    ((listModify s.nodes nid (fun n =>
        { n with call_stack := n.call_stack ++ ls.map (pyStrip blankSet) })).getD nid
          default).call_stack.length =
      (s.nodes.getD nid default).call_stack.length + ls.length := by
  refine ⟨contRun ls s nid hctx htitle hlast hls, ?_⟩
  rw [listModify_getD _ _ _ _ hnid]
  simp

/-- Witness for claim C5's amended theorem: one continuation line `" g"`
appended to a node with frames `["f"]`. -/
theorem c5_amended_witness :
    runLines
      { nodes := [{ percentage := 100, call_stack := [['f']], children := [] }],
        items := [],
        reports := [{ context := [], title_line := some ['t'], report_items := [] }],
        event_reports := [], in_report_context := false, cur_event_report := 0,
        cur_report_item := none, call_tree_stack := [], vertical_columns := [],
        last_node := some 0, has_skipped_callgraph := false, common := [] }
      [[' ', 'g']] =
      .ok { nodes := [{ percentage := 100, call_stack := [['f'], ['g']], children := [] }],
            items := [],
            reports := [{ context := [], title_line := some ['t'], report_items := [] }],
            event_reports := [], in_report_context := false, cur_event_report := 0,
            cur_report_item := none, call_tree_stack := [], vertical_columns := [],
            last_node := some 0, has_skipped_callgraph := false, common := [] } ∧
    (2 : Nat) = 1 + 1 :=
  c5_amended [[' ', 'g']]
    { nodes := [{ percentage := 100, call_stack := [['f']], children := [] }],
      items := [],
      reports := [{ context := [], title_line := some ['t'], report_items := [] }],
      event_reports := [], in_report_context := false, cur_event_report := 0,
      cur_report_item := none, call_tree_stack := [], vertical_columns := [],
      last_node := some 0, has_skipped_callgraph := false, common := [] }
    0 rfl (by decide) rfl (by decide) (by decide)

/-! ### Claim C6 -/

/-- Claim C6, counterexample: `call_tree_stack` and `last_node` are NOT reset
when a new ReportItem begins — only `vertical_columns` is.  Here `item2`'s
detail line `" | |-c"` infers depth 1 and attaches node 2 as a child of node 0,
the root created for `item1`; `item2.call_tree` stays `none`. -/
theorem c6_counterexample :
    parseFinal ["Event: A".toList, [], "T".toList, "item1".toList, " |-a".toList,
        " | |-b".toList, "item2".toList, " | |-c".toList] =
      .ok { nodes := [{ percentage := 100, call_stack := [['a']], children := [1, 2] },
                      { percentage := 100, call_stack := [['b']], children := [] },
                      { percentage := 100, call_stack := [['c']], children := [] }],
            items := [{ raw_line := "item1".toList, call_tree := some 0 },
                      { raw_line := "item2".toList, call_tree := none }],
            reports := [{ context := ["Event: A".toList], title_line := some "T".toList,
                          report_items := [0, 1] }],
            event_reports := [0], in_report_context := false, cur_event_report := 0,
            cur_report_item := some 1, call_tree_stack := [(1, 2), (1, 1), (0, 0)],
            vertical_columns := [1, 3], last_node := some 2,
            has_skipped_callgraph := false, common := [] } := by
  rfl

/-- Claim C6 (amended): when a new ReportItem begins (a non-indented body
line after the title), the step resets `vertical_columns` to `[]` but carries
`call_tree_stack` and `last_node` over unchanged from the previous item — they
are created once per parse, not per item. -/
theorem c6_amended (s : PyState) (c : Char) (cs : List Char)
    (hctx : s.in_report_context = false)
    (htitle : (s.reports.getD s.cur_event_report default).title_line ≠ none)
    (hsp : pyIsSpace c = false) :
    step s (c :: cs) = .ok { s with
      items := s.items ++ [{ raw_line := c :: cs, call_tree := none }],
      reports := listModify s.reports s.cur_event_report
        (fun r => { r with report_items := r.report_items ++ [s.items.length] }),
      cur_report_item := some s.items.length,
      vertical_columns := [] } := by
  have htitle2 : (s.reports[s.cur_event_report]?.getD default).title_line ≠ none := by
    simpa using htitle
  simp [step, hctx, htitle2, hsp]

/-- Witness for claim C6's amended theorem: a new item line `"i"` in a state
with a non-trivial `call_tree_stack`, `last_node` and `vertical_columns`. -/
theorem c6_amended_witness :
    step
      { nodes := [{ percentage := 100, call_stack := [['a']], children := [] }],
        items := [],
        reports := [{ context := [], title_line := some ['t'], report_items := [] }],
        event_reports := [], in_report_context := false, cur_event_report := 0,
        cur_report_item := none, call_tree_stack := [(0, 0)], vertical_columns := [1],
        last_node := some 0, has_skipped_callgraph := false, common := [] }
      ['i'] =
      .ok { nodes := [{ percentage := 100, call_stack := [['a']], children := [] }],
            items := [{ raw_line := ['i'], call_tree := none }],
            reports := [{ context := [], title_line := some ['t'], report_items := [0] }],
            event_reports := [], in_report_context := false, cur_event_report := 0,
            cur_report_item := some 0, call_tree_stack := [(0, 0)], vertical_columns := [],
            last_node := some 0, has_skipped_callgraph := false, common := [] } :=
  c6_amended
    { nodes := [{ percentage := 100, call_stack := [['a']], children := [] }],
      items := [],
      reports := [{ context := [], title_line := some ['t'], report_items := [] }],
      event_reports := [], in_report_context := false, cur_event_report := 0,
      cur_report_item := none, call_tree_stack := [(0, 0)], vertical_columns := [1],
      last_node := some 0, has_skipped_callgraph := false, common := [] }
    'i' [] rfl (by decide) (by decide)

/-! ### Claim C7 -/

/-- Claim C7 (confirmed): an indented line containing the elided-subtree
marker produces no CallTreeNode (the step only records the line's bars and
sets the skipped flag; parsing continues); the flag, once set, survives every
later successful step; `parse_event_reports` emits, at end of parse, exactly
`1` diagnostic when the final flag is set and `0` otherwise — so the count is
never more than one regardless of how many marker lines occurred, and is zero
when no line of the input contains the marker. -/
theorem c7_skipped_marker_diagnostic :
    (∀ (s : PyState) (c : Char) (cs : List Char),
      s.in_report_context = false →
      (s.reports.getD s.cur_event_report default).title_line ≠ none →
      pyIsSpace c = true →
      pyStrip blankSet (c :: cs) ≠ [] →
      hasSub marker (c :: cs) = true →
      step s (c :: cs) = .ok { s with
        vertical_columns := updateCols s.vertical_columns (c :: cs),
        has_skipped_callgraph := true }) ∧
    (∀ (ls : List (List Char)) (s s1 : PyState),
      runLines s ls = .ok s1 → s.has_skipped_callgraph = true →
      s1.has_skipped_callgraph = true) ∧
    (∀ (lines : List (List Char)) (s : PyState),
      parseFinal lines = .ok s →
      parse_event_reports lines =
        .ok (s.event_reports.map (fun i => s.reports.getD i default),
             if s.has_skipped_callgraph then 1 else 0)) ∧
    (∀ (lines : List (List Char)) (res : List EventReport × Nat),
      (∀ l ∈ lines, hasSub marker l = false) →
      parse_event_reports lines = .ok res → res.2 = 0) ∧
    (∀ (lines : List (List Char)) (res : List EventReport × Nat),
      parse_event_reports lines = .ok res → res.2 ≤ 1) := by
  refine ⟨?_, ?_, ?_, ?_, ?_⟩
  · intro s c cs hctx htitle hsp hblank hmark
    have htitle2 : (s.reports[s.cur_event_report]?.getD default).title_line ≠ none := by
      simpa using htitle
    simp [step, stepDetail, hctx, htitle2, hsp, hblank, hmark]
  · exact fun ls s s1 h hf => runLines_flag_mono ls s s1 h hf
  · intro lines s h
    unfold parse_event_reports
    rw [h]
  · intro lines res hm h
    unfold parse_event_reports at h
    cases hf : parseFinal lines with
    | error e => rw [hf] at h; cases h
    | ok s =>
      rw [hf] at h
      injection h with h1
      have hflag : s.has_skipped_callgraph = false := by
        have hpf := hf
        simp only [parseFinal] at hpf
        have hstable := runLines_flag_stable _ _ _
          (fun l hl => hm l (splitCommon_sub lines l hl)) hpf
        rw [hstable]
        rfl
      rw [← h1]
      simp [hflag]
  · intro lines res h
    unfold parse_event_reports at h
    cases hf : parseFinal lines with
    | error e => rw [hf] at h; cases h
    | ok s =>
      rw [hf] at h
      injection h with h1
      rw [← h1]
      cases hb : s.has_skipped_callgraph <;> simp [hb]

/-- Witness for claim C7 at concrete inputs: a marker line only sets the
flag; the flag survives an empty run; the bridge, the zero-count and the
at-most-one-count facts at one-line inputs. -/
theorem c7_skipped_marker_diagnostic_witness :
    step
      { nodes := [], items := [],
        reports := [{ context := [], title_line := some ['t'], report_items := [] }],
        event_reports := [], in_report_context := false, cur_event_report := 0,
        cur_report_item := none, call_tree_stack := [], vertical_columns := [],
        last_node := none, has_skipped_callgraph := false, common := [] }
      (" skipped in brief callgraph mode".toList) =
      .ok { nodes := [], items := [],
            reports := [{ context := [], title_line := some ['t'], report_items := [] }],
            event_reports := [], in_report_context := false, cur_event_report := 0,
            cur_report_item := none, call_tree_stack := [], vertical_columns := [],
            last_node := none, has_skipped_callgraph := true, common := [] } ∧
    ({ nodes := [], items := [], reports := [], event_reports := [],
       in_report_context := true, cur_event_report := 0, cur_report_item := none,
       call_tree_stack := [], vertical_columns := [], last_node := none,
       has_skipped_callgraph := true, common := [] } : PyState).has_skipped_callgraph =
      true ∧
    parse_event_reports ["Event: A".toList] =
      .ok ([{ context := ["Event: A".toList], title_line := none, report_items := [] }],
           0) ∧
    (([] : List EventReport), (0 : Nat)).2 = 0 ∧
    (([] : List EventReport), (0 : Nat)).2 ≤ 1 := by
  refine ⟨?_, ?_, ?_, ?_, ?_⟩
  · exact c7_skipped_marker_diagnostic.1
      { nodes := [], items := [],
        reports := [{ context := [], title_line := some ['t'], report_items := [] }],
        event_reports := [], in_report_context := false, cur_event_report := 0,
        cur_report_item := none, call_tree_stack := [], vertical_columns := [],
        last_node := none, has_skipped_callgraph := false, common := [] }
      ' ' ("skipped in brief callgraph mode".toList) rfl (by decide) (by decide)
      (by decide) (by decide)
  · exact c7_skipped_marker_diagnostic.2.1 []
      { nodes := [], items := [], reports := [], event_reports := [],
        in_report_context := true, cur_event_report := 0, cur_report_item := none,
        call_tree_stack := [], vertical_columns := [], last_node := none,
        has_skipped_callgraph := true, common := [] }
      _ rfl rfl
  · exact c7_skipped_marker_diagnostic.2.2.1 ["Event: A".toList]
      { nodes := [], items := [],
        reports := [{ context := ["Event: A".toList], title_line := none,
                      report_items := [] }],
        event_reports := [0], in_report_context := true, cur_event_report := 0,
        cur_report_item := none, call_tree_stack := [], vertical_columns := [],
        last_node := none, has_skipped_callgraph := false, common := [] }
      rfl
  · exact c7_skipped_marker_diagnostic.2.2.2.1 ["x".toList] ([], 0) (by decide) rfl
  · exact c7_skipped_marker_diagnostic.2.2.2.2 ["x".toList] ([], 0) rfl

/-! ### Claim C8 -/

/-- Claim C8, counterexample: the dashed line `" |-150.00%-- foo"` parses to a
node whose percentage is 150, outside the claimed interval (0, 100]; the
parser performs no range validation on the `<number>%` prefix. -/
theorem c8_counterexample :
    parseFinal ["Event: A".toList, [], "t".toList, "i".toList,
        " |-150.00%-- foo".toList] =
      .ok { nodes := [{ percentage := 150, call_stack := ["foo".toList], children := [] }],
            items := [{ raw_line := ['i'], call_tree := some 0 }],
            reports := [{ context := ["Event: A".toList], title_line := some ['t'],
                          report_items := [0] }],
            event_reports := [0], in_report_context := false, cur_event_report := 0,
            cur_report_item := some 0, call_tree_stack := [(0, 0)],
            vertical_columns := [1], last_node := some 0,
            has_skipped_callgraph := false, common := [] } ∧
    ¬((150 : Rat) ≤ 100) := by
  exact ⟨rfl, by norm_num⟩

/-- Claim C8 (amended): every CallTreeNode produced by the parser has a
weightPercent that is at least 0 — it is the parsed `<number>%` value when the
prefix is present (which may be 0 or exceed 100, since no range check is
performed) and 100.0 otherwise. -/
theorem c8_amended (lines : List (List Char)) (s : PyState)
    (h : parseFinal lines = .ok s) :
    ∀ n ∈ s.nodes, 0 ≤ n.percentage := by
  have hpf := h
  simp only [parseFinal] at hpf
  exact runLines_nodes_nonneg _ _ _ hpf (by simp [initState])

/-- Witness for claim C8's amended theorem at the 150% input. -/
theorem c8_amended_witness :
    (0 : Rat) ≤ ({ percentage := 150, call_stack := ["foo".toList],
                   children := [] } : CallTreeNode).percentage :=
  c8_amended ["Event: A".toList, [], "t".toList, "i".toList,
      " |-150.00%-- foo".toList]
    { nodes := [{ percentage := 150, call_stack := ["foo".toList], children := [] }],
      items := [{ raw_line := ['i'], call_tree := some 0 }],
      reports := [{ context := ["Event: A".toList], title_line := some ['t'],
                    report_items := [0] }],
      event_reports := [0], in_report_context := false, cur_event_report := 0,
      cur_report_item := some 0, call_tree_stack := [(0, 0)],
      vertical_columns := [1], last_node := some 0,
      has_skipped_callgraph := false, common := [] }
    rfl _ (by decide)

/-! ### Claim C9 -/

/-- Claim C9 (confirmed): in body mode with the title consumed, an indented
line whose stripped content is non-empty, contains no dash and is not the
elided-subtree marker, arriving before any dashed line has ever created a
CallTreeNode (`last_node` is still `None`, the node arena empty), raises
AttributeError — `last_node.add_call` on `None` — and the whole parse aborts
with no EventReport sequence returned. -/
theorem c9_continuation_before_node_raises (s : PyState) (c : Char) (cs : List Char)
    (rest : List (List Char))
    (hctx : s.in_report_context = false)
    (htitle : (s.reports.getD s.cur_event_report default).title_line ≠ none)
    (hsp : pyIsSpace c = true)
    (hblank : pyStrip blankSet (c :: cs) ≠ [])
    (hmark : hasSub marker (c :: cs) = false)
    (hdash : firstIdx '-' (c :: cs) = none)
    (hnodes : s.nodes = [])
    (hlast : s.last_node = none) :
    runLines s ((c :: cs) :: rest) = .error .attributeError := by
  have htitle2 : (s.reports[s.cur_event_report]?.getD default).title_line ≠ none := by
    simpa using htitle
  have hstep : step s (c :: cs) = .error .attributeError := by
    simp [step, stepDetail, stepCall, hctx, htitle2, hsp, hblank, hmark, hdash, hlast]
  simp [runLines, hstep]

/-- Witness for claim C9: the continuation line `" x"` with no node yet. -/
theorem c9_continuation_before_node_raises_witness :
    runLines
      { nodes := [], items := [],
        reports := [{ context := [], title_line := some ['t'], report_items := [] }],
        event_reports := [], in_report_context := false, cur_event_report := 0,
        cur_report_item := none, call_tree_stack := [], vertical_columns := [],
        last_node := none, has_skipped_callgraph := false, common := [] }
      [[' ', 'x']] = .error .attributeError :=
  c9_continuation_before_node_raises _ ' ' ['x'] [] rfl (by decide) (by decide)
    (by decide) (by decide) (by decide) rfl rfl

/-! ### Claim C10 -/

/-- Claim C10 (confirmed): a dashed detail line that infers depth d ≥ 1 while
no dashed line has ever been recorded at depth d-1 (the depth table has no
entry for d-1) raises KeyError on `call_tree_stack[depth - 1]`; and a dashed
line inferring depth 0 before any ReportItem exists raises AttributeError on
`cur_report_item.call_tree`.  Either way the parse aborts and no EventReport
sequence is returned. -/
theorem c10_unrecorded_depth_raises :
    (∀ (s : PyState) (c : Char) (cs : List Char) (rest : List (List Char))
        (pos d : Nat) (pct : Rat) (name : List Char),
      s.in_report_context = false →
      (s.reports.getD s.cur_event_report default).title_line ≠ none →
      pyIsSpace c = true →
      pyStrip blankSet (c :: cs) ≠ [] →
      hasSub marker (c :: cs) = false →
      firstIdx '-' (c :: cs) = some pos →
      depthOf pos (updateCols s.vertical_columns (c :: cs)) = (d : Int) →
      1 ≤ d →
      stackLookup (d - 1) s.call_tree_stack = none →
      parsePercent (pyStrip nodeSet (c :: cs)) = .ok (pct, name) →
      runLines s ((c :: cs) :: rest) = .error .keyError) ∧
    (∀ (s : PyState) (c : Char) (cs : List Char) (rest : List (List Char))
        (pos : Nat) (pct : Rat) (name : List Char),
      s.in_report_context = false →
      (s.reports.getD s.cur_event_report default).title_line ≠ none →
      pyIsSpace c = true →
      pyStrip blankSet (c :: cs) ≠ [] →
      hasSub marker (c :: cs) = false →
      firstIdx '-' (c :: cs) = some pos →
      depthOf pos (updateCols s.vertical_columns (c :: cs)) = 0 →
      s.cur_report_item = none →
      parsePercent (pyStrip nodeSet (c :: cs)) = .ok (pct, name) →
      runLines s ((c :: cs) :: rest) = .error .attributeError) := by
  constructor
  · intro s c cs rest pos d pct name hctx htitle hsp hblank hmark hdash hdepth hd1
      hstack hperc
    have htitle2 : (s.reports[s.cur_event_report]?.getD default).title_line ≠ none := by
      simpa using htitle
    have hne : ¬(depthOf pos (updateCols s.vertical_columns (c :: cs)) = -1) := by
      rw [hdepth]
      omega
    have htn : (depthOf pos (updateCols s.vertical_columns (c :: cs))).toNat = d := by
      rw [hdepth]
      simp
    have hdz : ¬(d = 0) := by omega
    have hstep : step s (c :: cs) = .error .keyError := by
      simp [step, stepDetail, stepDash, stepAttach, hctx, htitle2, hsp, hblank, hmark,
        hdash, hne, hperc, htn, hdz, hstack]
    simp [runLines, hstep]
  · intro s c cs rest pos pct name hctx htitle hsp hblank hmark hdash hdepth hcur hperc
    have htitle2 : (s.reports[s.cur_event_report]?.getD default).title_line ≠ none := by
      simpa using htitle
    have hne : ¬(depthOf pos (updateCols s.vertical_columns (c :: cs)) = -1) := by
      rw [hdepth]
      decide
    have htn : (depthOf pos (updateCols s.vertical_columns (c :: cs))).toNat = 0 := by
      rw [hdepth]
      rfl
    have hstep : step s (c :: cs) = .error .attributeError := by
      simp [step, stepDetail, stepDash, stepAttach, hctx, htitle2, hsp, hblank, hmark,
        hdash, hne, hperc, htn, hcur]
    simp [runLines, hstep]

/-- Witness for claim C10: `" | |-x"` at depth 1 with an empty depth table
raises KeyError; `" |-x"` at depth 0 with no current item raises
AttributeError. -/
theorem c10_unrecorded_depth_raises_witness :
    runLines
      { nodes := [], items := [],
        reports := [{ context := [], title_line := some ['t'], report_items := [] }],
        event_reports := [], in_report_context := false, cur_event_report := 0,
        cur_report_item := none, call_tree_stack := [], vertical_columns := [],
        last_node := none, has_skipped_callgraph := false, common := [] }
      [" | |-x".toList] = .error .keyError ∧
    runLines
      { nodes := [], items := [],
        reports := [{ context := [], title_line := some ['t'], report_items := [] }],
        event_reports := [], in_report_context := false, cur_event_report := 0,
        cur_report_item := none, call_tree_stack := [], vertical_columns := [],
        last_node := none, has_skipped_callgraph := false, common := [] }
      [" |-x".toList] = .error .attributeError :=
  ⟨c10_unrecorded_depth_raises.1 _ ' ' "| |-x".toList [] 4 1 100 ['x'] rfl (by decide)
    (by decide) (by decide) (by decide) (by decide) (by decide) (by decide) (by decide)
    rfl,
   c10_unrecorded_depth_raises.2 _ ' ' "|-x".toList [] 2 100 ['x'] rfl (by decide)
    (by decide) (by decide) (by decide) (by decide) (by decide) (by decide) rfl⟩

end Report
